import Mathlib

/-!
# Verification of the price-proxy extraction engine (`src/server.js`)

Shallow embedding of the extraction engine of the Universal Price Proxy:
the number normalizer `parsePriceNumber`, the price arbitration
`chooseBestPrice`, the image resolution `findBestImage`, the six candidate
collectors and the orchestrating `universalExtract`, together with the
render-fallback decision of the `/api/price` handler.

Modelling conventions:
* JavaScript numbers are modelled as `ℚ`.  All numeric values reaching the
  candidate list originate from decimal literals, so rationals are exact; the
  `Number.isFinite` guards of the source are commented where they become
  vacuous in `ℚ`.
* The parsed DOM is modelled as a `Doc` record exposing exactly the queries
  the source performs (`$(sel).first()`, meta contents, script bodies, the
  `<img>` list, the body text).
* WHATWG `new URL(u, base).toString()` is kept abstract: every function that
  absolutizes URLs takes a `resolve : String → String → Option String`
  parameter (`none` models the constructor throwing).  Concrete evaluations
  use `resolveAbs`, which models the constructor on already-absolute
  normalized http(s) inputs.
* The regexes of the source are implemented as explicit scanners with the
  exact backtracking semantics of the corresponding JavaScript patterns.
-/

/-! ## Character and string utilities mirroring JavaScript semantics -/

/-- JavaScript word character (`\w` = `[A-Za-z0-9_]`). -/
def isWordChar (c : Char) : Bool := c.isAlphanum || c == '_'

/-- Whitespace as matched by `\s` / skipped by `parseInt`/`parseFloat`
(ASCII forms; the inputs handled here are ASCII). -/
def isJsSpace (c : Char) : Bool := c.isWhitespace

/-- `pat.isPrefixOf cs` up to ASCII case (models the `i` regex flag). -/
def stripPrefixCI : List Char → List Char → Option (List Char)
  | [], cs => some cs
  | _ :: _, [] => none
  | p :: ps, c :: cs => if p.toLower == c.toLower then stripPrefixCI ps cs else none

/-- Bool-valued infix test on character lists. -/
def infixOfB (pat : List Char) : List Char → Bool
  | [] => pat.isEmpty
  | c :: cs => pat.isPrefixOf (c :: cs) || infixOfB pat cs

/-- JavaScript `String.prototype.includes`. -/
def strIncludes (s pat : String) : Bool := infixOfB pat.toList s.toList

/-- One step of `/\b kw \b/i`-style word search: `prevIsWord` is the wordness
of the character just before the current position. -/
def wordScanAux (kw : List Char) : Bool → List Char → Bool
  | _, [] => false
  | prevIsWord, c :: cs =>
    (if !prevIsWord then
        match stripPrefixCI kw (c :: cs) with
        | some rest =>
          (match rest with
            | [] => true
            | r :: _ => !isWordChar r)
        | none => false
      else false)
    || wordScanAux kw (isWordChar c) cs

/-- `new RegExp("\\b" ++ kw ++ "\\b", "i").test txt` for a keyword made of
word characters. -/
def containsWordCI (txt kw : String) : Bool := wordScanAux kw.toList false txt.toList

/-- `String.prototype.toLowerCase` (ASCII inputs). -/
def strToLower (s : String) : String := String.mk (s.toList.map Char.toLower)

/-- `String.prototype.startsWith`. -/
def strStartsWith (s pat : String) : Bool := pat.toList.isPrefixOf s.toList

/-- `String.prototype.trim` (ASCII whitespace). -/
def strTrim (s : String) : String :=
  String.mk (((s.toList.dropWhile isJsSpace).reverse.dropWhile isJsSpace).reverse)

/-- Digit run to a natural number. -/
def digitsToNat (ds : List Char) : Nat := ds.foldl (fun a c => a * 10 + (c.toNat - '0'.toNat)) 0

/-- Hex digit run to a natural number. -/
def hexDigitsToNat (ds : List Char) : Nat :=
  ds.foldl (fun a c =>
    a * 16 +
      (if c.isDigit then c.toNat - '0'.toNat
       else if c ≥ 'a' && c ≤ 'f' then c.toNat - 'a'.toNat + 10
       else c.toNat - 'A'.toNat + 10)) 0

/-- JavaScript `parseInt(s) || 0` on an optional attribute value:
leading whitespace, optional sign, `0x` prefix (no radix argument in the
source), longest digit prefix; `NaN` collapses to `0` through `|| 0`. -/
def parseIntOr0 (o : Option String) : Int :=
  match o with
  | none => 0
  | some s =>
    let cs := s.toList.dropWhile isJsSpace
    let (neg, cs) :=
      match cs with
      | '-' :: t => (true, t)
      | '+' :: t => (false, t)
      | t => (false, t)
    match cs with
    | '0' :: x :: t =>
      if x == 'x' || x == 'X' then
        let ds := t.takeWhile (fun c => c.isDigit || (c ≥ 'a' && c ≤ 'f') || (c ≥ 'A' && c ≤ 'F'))
        if ds.isEmpty then 0
        else if neg then -(hexDigitsToNat ds : Int) else (hexDigitsToNat ds : Int)
      else
        let ds := cs.takeWhile Char.isDigit
        if ds.isEmpty then 0
        else if neg then -(digitsToNat ds : Int) else (digitsToNat ds : Int)
    | _ =>
      let ds := cs.takeWhile Char.isDigit
      if ds.isEmpty then 0
      else if neg then -(digitsToNat ds : Int) else (digitsToNat ds : Int)

/-- JavaScript `parseFloat` restricted to the alphabet that can reach it in
this program (digits, `.`, `,`, `-` — the normalizer strips everything else,
so exponents and `Infinity` cannot occur): leading whitespace, optional sign,
longest `digits[.digits]` prefix; no digit at all gives `NaN ↦ none`. -/
def parseFloatQ (s : String) : Option ℚ :=
  let cs := s.toList.dropWhile isJsSpace
  let (neg, cs) :=
    match cs with
    | '-' :: t => (true, t)
    | '+' :: t => (false, t)
    | t => (false, t)
  let intDs := cs.takeWhile Char.isDigit
  let rest := cs.dropWhile Char.isDigit
  let fracDs :=
    match rest with
    | '.' :: t => t.takeWhile Char.isDigit
    | _ => []
  if intDs.isEmpty && fracDs.isEmpty then none
  else
    let n : Int := digitsToNat intDs * 10 ^ fracDs.length + digitsToNat fracDs
    some (mkRat (if neg then -n else n) (10 ^ fracDs.length))

/-! ## The number normalizer `parsePriceNumber` (src/server.js:37-61) -/

/-- `s.replace(/,-\b/g, ",00")`: the boundary after `-` (a non-word char)
holds exactly when the next character is a word character, so a trailing
`",-"` at end of string is left unchanged. -/
def replaceCommaDash : List Char → List Char
  | ',' :: '-' :: c :: rest =>
    if isWordChar c then ',' :: '0' :: '0' :: replaceCommaDash (c :: rest)
    else ',' :: replaceCommaDash ('-' :: c :: rest)
  | c :: rest => c :: replaceCommaDash rest
  | [] => []

/-- `normalized.replace(/\.(?=\d{3}\b)/g, "")`: drop each `.` followed by
exactly three digits and then a boundary (non-word char or end). -/
def removeDotThousands : List Char → List Char
  | '.' :: a :: b :: c :: rest =>
    if a.isDigit && b.isDigit && c.isDigit &&
        (match rest with
          | [] => true
          | d :: _ => !isWordChar d) then
      removeDotThousands (a :: b :: c :: rest)
    else '.' :: removeDotThousands (a :: b :: c :: rest)
  | c :: rest => c :: removeDotThousands rest
  | [] => []

/-- `String.prototype.replace` with a plain character (first occurrence only). -/
def replaceFirstChar (old new : Char) : List Char → List Char
  | [] => []
  | c :: rest => if c == old then new :: rest else c :: replaceFirstChar old new rest

/-- Index of the last occurrence of a character (`String.prototype.lastIndexOf`). -/
def lastIndexOfChar (c : Char) (l : List Char) : Int :=
  (l.foldl (fun (p : Int × Int) x => (p.1 + 1, if x == c then p.1 + 1 else p.2)) (-1, -1)).2

/-- Split on a character, like `String.prototype.split` with a 1-char string. -/
def splitOnChar (sep : Char) : List Char → List (List Char)
  | [] => [[]]
  | c :: rest =>
    let r := splitOnChar sep rest
    if c == sep then [] :: r
    else
      match r with
      | h :: t => (c :: h) :: t
      | [] => [[c]]

/-- The final guard of the normalizer:
`Number.isFinite(num) && num > 0 ? num : null` (finiteness is vacuous in `ℚ`). -/
def posGuard (num : Option ℚ) : Option ℚ :=
  match num with
  | some num => if 0 < num then some num else none
  | none => none

/-- The number normalizer (`parsePriceNumber`, src/server.js:37-61) on string
input.  For a string `str`, the JS guard `!str && str !== 0` rejects exactly
`""`.  The `Number.isFinite` part of the final guard is vacuous in `ℚ`. -/
def parsePriceNumber (str : String) : Option ℚ :=
  if str == "" then none
  else
    let s := replaceCommaDash str.toList
    -- `.replace(/\s+/g, "").replace(/[^\d,.\-]/g, "")`: whitespace is not in
    -- the kept alphabet, so the two replaces amount to one filter.
    let cleaned := s.filter fun c => c.isDigit || c == ',' || c == '.' || c == '-'
    let normalized :=
      if cleaned.contains ',' && cleaned.contains '.' then
        if lastIndexOfChar ',' cleaned > lastIndexOfChar '.' cleaned then
          replaceFirstChar ',' '.' (removeDotThousands cleaned)
        else cleaned.filter (fun c => !(c == ','))
      else if cleaned.contains ',' then
        let parts := splitOnChar ',' cleaned
        if parts.length == 2 && ((parts.getD 1 []).length ≤ 2) then
          replaceFirstChar ',' '.' cleaned
        else cleaned.filter (fun c => !(c == ','))
      else cleaned
    posGuard (parseFloatQ (String.mk normalized))

/-- `parsePriceNumber` applied to a `string | null | undefined` value coming
out of a `||` fallback chain: `null`/`undefined` fail the initial guard. -/
def parsePriceNumberOpt (o : Option String) : Option ℚ :=
  match o with
  | none => none
  | some s => parsePriceNumber s

example : parsePriceNumber "1.299,00" = some 1299 := by decide
example : parsePriceNumber "1,299.00" = some 1299 := by decide
example : parsePriceNumber "1299,00" = some 1299 := by decide
example : parsePriceNumber "1299.00" = some 1299 := by decide
example : parsePriceNumber "379,-" = some 379 := by decide
example : parsePriceNumber "0" = none := by decide
example : parsePriceNumber "" = none := by decide
example : parsePriceNumber "abc" = none := by decide
example : parsePriceNumber "-5,00" = none := by decide
example : parsePriceNumber "49.99" = some (mkRat 4999 100) := by decide

/-! ## JSON values (output of `JSON.parse`) and JavaScript coercions -/

/-- A parsed JSON value.  Object entries are kept in insertion order; keys are
unique because `JSON.parse` keeps only the last duplicate. -/
inductive JSVal where
  | null : JSVal
  | bool : Bool → JSVal
  | num : ℚ → JSVal
  | str : String → JSVal
  | arr : List JSVal → JSVal
  | obj : List (String × JSVal) → JSVal

/-- JavaScript truthiness of a JSON value (`NaN` cannot arise in `ℚ`). -/
def jsTruthy : JSVal → Bool
  | .null => false
  | .bool b => b
  | .num q => !(q == 0)
  | .str s => !(s == "")
  | .arr _ => true
  | .obj _ => true

/-- `typeof v === "object"` for a JSON value (true for `null`, arrays, objects). -/
def jsIsObjectType : JSVal → Bool
  | .null => true
  | .arr _ => true
  | .obj _ => true
  | _ => false

/-- Property access `v[k]`; `none` models `undefined`.  On `null` the source
only ever reaches this through optional chaining (`offer?.price`,
`imgCand?.url`), where the result is `undefined`. -/
def jsGet : JSVal → String → Option JSVal
  | .obj entries, k => (entries.find? (fun p => p.1 == k)).map (·.2)
  | _, _ => none

/-- `a === "lit"` where `a` may be `undefined`. -/
def jsStrictEqStr (v : Option JSVal) (s : String) : Bool :=
  match v with
  | some (.str t) => t == s
  | _ => false

/-- `a || b` on possibly-`undefined` JSON values. -/
def jsOrElseV (v : Option JSVal) (w : JSVal) : JSVal :=
  match v with
  | some x => if jsTruthy x then x else w
  | none => w

/-- Truthiness of a `string | undefined` (attribute / meta lookups). -/
def strTruthy (o : Option String) : Bool :=
  match o with
  | some s => !(s == "")
  | none => false

/-- `a || b` on `string | undefined` values. -/
def jsOrStr (a b : Option String) : Option String := if strTruthy a then a else b

/-- Decimal rendering of a nonnegative rational with terminating decimal
expansion: `String(number)` prints the shortest digit string, i.e. the
fraction with trailing zeros stripped (`k` is minimal below). -/
def ratDecimalStringNN (q : ℚ) : String :=
  match (List.range 41).find? (fun k => (10 ^ k) % q.den == 0) with
  | some k =>
    let scale := (10 ^ k) / q.den
    let n := q.num.toNat * scale
    let ip := n / 10 ^ k
    let fp := n % 10 ^ k
    if k == 0 then toString ip
    else
      let fs := toString fp
      let fs := String.mk (List.replicate (k - fs.length) '0') ++ fs
      toString ip ++ "." ++ fs
  | none => toString q  -- non-terminating decimals cannot come from doubles

/-- `String(number)` for the rationals arising here (all sourced from decimal
literals; the exponent forms for `|x| ≥ 1e21` or `|x| < 1e-6` do not arise). -/
def ratToJsString (q : ℚ) : String :=
  if q < 0 then "-" ++ ratDecimalStringNN (-q) else ratDecimalStringNN q

mutual

/-- `String(v)` for a JSON value (`Array.prototype.toString` joins with `,`,
rendering `null` elements as empty strings; objects give `[object Object]`). -/
def jsToString : JSVal → String
  | .null => "null"
  | .bool b => if b then "true" else "false"
  | .num q => ratToJsString q
  | .str s => s
  | .arr l => jsToStringList l
  | .obj _ => "[object Object]"

/-- Elements of an array joined with `","`; `null` renders as `""` inside
a join. -/
def jsToStringList : List JSVal → String
  | [] => ""
  | [v] => jsToStringElem v
  | v :: rest => jsToStringElem v ++ "," ++ jsToStringList rest

/-- One array element under `Array.prototype.join`. -/
def jsToStringElem : JSVal → String
  | .null => ""
  | v => jsToString v

end

/-- `parsePriceNumber(v)` on an arbitrary JSON value (the JSON-LD and
JSON-blob collectors pass raw JSON values): the guard `!str && str !== 0`
lets the numeral zero through, and `String(str)` stringifies. -/
def parsePriceNumberVal (v : JSVal) : Option ℚ :=
  if !jsTruthy v && !(match v with | .num q => q == 0 | _ => false) then none
  else parsePriceNumber (jsToString v)

/-! ## Price candidates and arbitration (`chooseBestPrice`, src/server.js:196-246) -/

/-- A price candidate as pushed by the collectors. -/
structure PriceCandidate where
  value : ℚ
  source : String
  context : String
deriving DecidableEq, Repr

/-- A candidate after VAT scoring (`{ ...c, score }`). -/
structure ScoredCand where
  value : ℚ
  source : String
  context : String
  score : Int
deriving DecidableEq, Repr

def VAT_POSITIVE : List String :=
  ["inkl. mwst", "inkl mwst", "inkl. steuer", "inkl steuer",
   "inklusive mwst", "inklusive steuer",
   "brutto", "vat included", "incl. vat", "ttc"]

def VAT_NEGATIVE : List String :=
  ["exkl. mwst", "exkl mwst", "exkl. steuer", "exkl steuer",
   "ohne mwst", "ohne steuer",
   "netto", "ex vat", "ht"]

/-- VAT score of one candidate (`score = 0; +3 if positive keyword; −4 if
negative keyword`, matching on the lower-cased context). -/
def scoreCand (c : PriceCandidate) : ScoredCand :=
  let ctx := strToLower c.context
  let pos : Int := if VAT_POSITIVE.any (fun k => strIncludes ctx k) then 3 else 0
  let neg : Int := if VAT_NEGATIVE.any (fun k => strIncludes ctx k) then 4 else 0
  ⟨c.value, c.source, c.context, pos - neg⟩

/-- `freq[c.value] = (freq[c.value] || 0) + 1` on the insertion-ordered entry
list of the `freq` object. -/
def bumpFreq : List (ℚ × Nat) → ℚ → List (ℚ × Nat)
  | [], v => [(v, 1)]
  | (k, n) :: rest, v =>
    if k == v then (k, n + 1) :: rest else (k, n) :: bumpFreq rest v

/-- `Object.entries(freq).sort(...)[0][0]` with comparator
"frequency descending, then parsed value descending".  Keys of `freq` are
`String(value)` images of distinct numbers, hence pairwise distinct and
round-tripped exactly by `parseFloat`; the comparator is therefore a strict
total order on the entries, the stable sort's head is its unique maximum, and
`Object.entries`' key ordering (integer-like keys first) cannot change it.
This function computes that maximum directly. -/
def pickStep (b x : ℚ × Nat) : ℚ × Nat :=
  if decide (b.2 < x.2) || (x.2 == b.2 && decide (b.1 < x.1)) then x else b

/-- See `pickStep`. -/
def pickBest : List (ℚ × Nat) → Option ℚ
  | [] => none
  | e :: rest => some (rest.foldl pickStep e).1

/-- The hard-range filter `cands.filter(c => c.value >= 10 && c.value <= 100000)`
(src/server.js:216). -/
def inRangeCands (cands : List PriceCandidate) : List PriceCandidate :=
  cands.filter fun c => decide (10 ≤ c.value) && decide (c.value ≤ 100000)

/-- `const list = inRange.length ? inRange : cands` (src/server.js:217). -/
def rangeOrAll (cands : List PriceCandidate) : List PriceCandidate :=
  if (inRangeCands cands).isEmpty then cands else inRangeCands cands

/-- The scored pool of `chooseBestPrice` (src/server.js:216-232): range
filter with fallback, VAT scoring, and the preference for the non-negative
partition. -/
def arbPool (cands : List PriceCandidate) : List ScoredCand :=
  let scored := (rangeOrAll cands).map scoreCand
  let nonNetto := scored.filter fun c => decide (0 ≤ c.score)
  if nonNetto.isEmpty then scored else nonNetto

/-- Price arbitration (`chooseBestPrice`, src/server.js:209-246). -/
def chooseBestPrice (cands : List PriceCandidate) : Option ℚ :=
  if cands.isEmpty then none
  else
    let freq := (arbPool cands).foldl (fun f c => bumpFreq f c.value) []
    pickBest freq

example :
    chooseBestPrice
      [⟨mkRat 1999 100, "regex:body", "inkl. MwSt"⟩,
       ⟨mkRat 1999 100, "regex:body", "inkl. MwSt"⟩,
       ⟨mkRat 1799 100, "regex:body", "netto"⟩] = some (mkRat 1999 100) := by decide

example :
    chooseBestPrice [⟨25, "a", ""⟩, ⟨30, "b", ""⟩] = some 30 := by decide

/-! ## URL absolutization (`absolutize`, src/server.js:82-94)

`new URL(maybeUrl, base).toString()` is modelled by an abstract
`resolve : String → String → Option String` parameter (`none` = the
constructor throws). -/

/-- `absolutize` on a `string | null | undefined` input. -/
def absolutize (resolve : String → String → Option String)
    (maybeUrl : Option String) (base : String) : Option String :=
  match maybeUrl with
  | none => none
  | some u =>
    if u == "" then none  -- `!maybeUrl` also catches the empty string
    else
      match resolve u base with
      | some absolute => if strStartsWith absolute "http" then some absolute else none
      | none => if strStartsWith u "//" then some ("https:" ++ u) else none

/-- `absolutize` on a JSON value (the constructor stringifies non-strings;
the catch branch requires `typeof maybeUrl === "string"`). -/
def absolutizeVal (resolve : String → String → Option String)
    (v : Option JSVal) (base : String) : Option String :=
  match v with
  | none => none
  | some u =>
    if !jsTruthy u then none
    else
      match resolve (jsToString u) base with
      | some absolute => if strStartsWith absolute "http" then some absolute else none
      | none =>
        match u with
        | .str s => if strStartsWith s "//" then some ("https:" ++ s) else none
        | _ => none

/-- Sample resolver for concrete evaluations: `new URL(u, base).toString()`
on an input that is already an absolute, normalized http(s) URL returns it
unchanged; other inputs are treated as failing to resolve. -/
def resolveAbs : String → String → Option String := fun u _ =>
  if strStartsWith u "http://" || strStartsWith u "https://" then some u else none

/-! ## Image utilities (src/server.js:96-194) -/

/-- The denylist test `/sprite|icon|logo|placeholder|loading/i.test(u)`. -/
def isBlockedImageUrl (u : String) : Bool :=
  let l := strToLower u
  ["sprite", "icon", "logo", "placeholder", "loading"].any fun p => strIncludes l p

/-- First match of `/(\S+)\s+(\d+)w/` in a srcset segment: the first
non-space run followed by whitespace, a maximal digit run and `w`
(`\S`/`\s` are disjoint and `w` is not a digit, so the engine's backtracking
reduces to exactly this scan).  Returns `(m[1], parseInt(m[2], 10))`. -/
def srcsetMatchAux : Nat → List Char → Option (List Char × Nat)
  | 0, _ => none
  | _ + 1, [] => none
  | fuel + 1, cs =>
    let cs := cs.dropWhile isJsSpace
    let run := cs.takeWhile (fun c => !isJsSpace c)
    let rest := cs.dropWhile (fun c => !isJsSpace c)
    let ws := rest.takeWhile isJsSpace
    let afterWs := rest.dropWhile isJsSpace
    let ds := afterWs.takeWhile Char.isDigit
    let afterDs := afterWs.dropWhile Char.isDigit
    if run.isEmpty then none
    else if !ws.isEmpty && !ds.isEmpty &&
        (match afterDs with
          | 'w' :: _ => true
          | _ => false) then
      some (run, digitsToNat ds)
    else srcsetMatchAux fuel rest

/-- `seg.match(/(\S+)\s+(\d+)w/)` on a trimmed srcset segment. -/
def srcsetSegMatch (seg : String) : Option (List Char × Nat) :=
  srcsetMatchAux (seg.length + 1) seg.toList

/-- `pickFromSrcset` (src/server.js:97-111): split on `,`, per-segment match
of `/(\S+)\s+(\d+)w/` (fallback `{url: seg.split(" ")[0], w: 0}`), drop
entries with falsy `url`, stable-sort by width descending and take the first
url — i.e. the first entry of maximal width. -/
def pickFromSrcset (srcset : Option String) : Option String :=
  if !strTruthy srcset then none
  else
    let s := (srcset.getD "")
    let parts := (splitOnChar ',' s.toList).map fun seg =>
      let seg := strTrim (String.mk seg)
      match srcsetSegMatch seg with
      | some (url, w) => (String.mk url, w)
      | none => ((splitOnChar ' ' seg.toList).headD [] |> String.mk, 0)
    let parts := parts.filter fun o => !(o.1 == "")
    match parts with
    | [] => none
    | p :: rest => some (rest.foldl (fun best o => if o.2 > best.2 then o else best) p).1

/-- A DOM element as the source reads it: an attribute map and its text. -/
structure El where
  attrs : List (String × String)
  text : String

/-- `$el.attr name` (`none` = `undefined`). -/
def getAttr (e : El) (a : String) : Option String :=
  (e.attrs.find? (fun p => p.1 == a)).map (·.2)

/-- A `<script>` element: its raw text and the outcome of `JSON.parse` on it
(`none` = the parse throws). -/
structure ScriptEl where
  raw : String
  parsed : Option JSVal

/-- The parsed document, exposing exactly the queries the extraction engine
performs.  `selectorFirst sel` models `$(sel).first()` (`none` = empty
selection); list fields model the `.each`/`.map` traversals; meta contents
are read through `selectorFirst` + `getAttr "content"`. -/
structure Doc where
  /-- `$(sel).first()` for every selector the engine queries. -/
  selectorFirst : String → Option El
  /-- `script[type="application/ld+json"]` elements, in document order. -/
  ldJsonScripts : List ScriptEl
  /-- `script:not([type]), script[type="application/json"],
  script[type*="ld+json"]` elements, in document order. -/
  inlineScripts : List ScriptEl
  /-- `srcset` attribute of each `picture source` element. -/
  pictureSourceSrcsets : List (Option String)
  /-- all `img` elements (`$("img").each`). -/
  allImgs : List El
  /-- `$("body").text()` -/
  bodyText : String

/-- `meta`-style content lookup: `$(sel).attr("content")`. -/
def metaContent (d : Doc) (sel : String) : Option String :=
  (d.selectorFirst sel).bind fun e => getAttr e "content"

/-- The attribute priority list of `getImgCandidateFromEl`. -/
def imgAttrNames : List String :=
  ["src", "data-src", "data-original", "data-large_image", "data-zoom-image",
   "data-lazy", "content"]

/-- The attribute loop of `getImgCandidateFromEl`: for each attribute with a
truthy value, accept its absolutized URL unless denylisted, else continue. -/
def imgAttrLoop (resolve : String → String → Option String) (e : El)
    (pageUrl : String) : List String → Option String
  | [] => none
  | a :: rest =>
    match getAttr e a with
    | some v =>
      if v == "" then imgAttrLoop resolve e pageUrl rest
      else
        match absolutize resolve (some v) pageUrl with
        | some abs =>
          if isBlockedImageUrl abs then imgAttrLoop resolve e pageUrl rest
          else some abs
        | none => imgAttrLoop resolve e pageUrl rest
    | none => imgAttrLoop resolve e pageUrl rest

/-- `getImgCandidateFromEl` (src/server.js:113-137). -/
def getImgCandidateFromEl (resolve : String → String → Option String)
    (img : Option El) (pageUrl : String) : Option String :=
  match img with
  | none => none  -- `!$img || !$img.length`
  | some e =>
    match imgAttrLoop resolve e pageUrl imgAttrNames with
    | some abs => some abs
    | none =>
      let srcset := jsOrStr (getAttr e "srcset") (getAttr e "data-srcset")
      let best := pickFromSrcset srcset
      match absolutize resolve best pageUrl with
      | some absBest => if isBlockedImageUrl absBest then none else some absBest
      | none => none

/-- The ordered selector list of `findBestImage`. -/
def imgSelectors : List String :=
  ["#landingImage", "#imgBlkFront", ".product-image img", ".product-gallery img",
   "#main-image", "[data-testid='product-image']", "[class*='ProductImage'] img",
   "[class*='product-img'] img", ".gallery-main img", "[itemprop='image']",
   "img[data-old-hires]", "img"]

/-- Step 1 of `findBestImage`: the meta-tag `||` chain, absolutized
(src/server.js:140-147).  No denylist test is applied here. -/
def metaImageStep (resolve : String → String → Option String) (d : Doc)
    (pageUrl : String) : Option String :=
  let image :=
    jsOrStr (metaContent d "meta[property=\"og:image:url\"]")
      (jsOrStr (metaContent d "meta[property=\"og:image\"]")
        (jsOrStr (metaContent d "meta[property=\"og:image:secure_url\"]")
          (metaContent d "meta[name=\"twitter:image\"]")))
  absolutize resolve image pageUrl

/-- Step 2: first truthy `picture source` srcset, widest entry, absolutized
(src/server.js:149-151).  No denylist test is applied here. -/
def pictureStep (resolve : String → String → Option String) (d : Doc)
    (pageUrl : String) : Option String :=
  let picSrc := (d.pictureSourceSrcsets.filterMap id).find? fun s => !(s == "")
  absolutize resolve (pickFromSrcset picSrc) pageUrl

/-- The `for (const sel of imgSelectors)` loop body (src/server.js:168-172). -/
def selectorCascade (resolve : String → String → Option String) (d : Doc)
    (pageUrl : String) : List String → Option String
  | [] => none
  | sel :: rest =>
    match getImgCandidateFromEl resolve (d.selectorFirst sel) pageUrl with
    | some cand => some cand
    | none => selectorCascade resolve d pageUrl rest

/-- Step 3: the selector cascade through `getImgCandidateFromEl`
(src/server.js:153-172). -/
def selectorStep (resolve : String → String → Option String) (d : Doc)
    (pageUrl : String) : Option String :=
  selectorCascade resolve d pageUrl imgSelectors

/-- Step 4: `<link rel="preload" as="image">` href, absolutized
(src/server.js:174-176).  No denylist test is applied here. -/
def preloadStep (resolve : String → String → Option String) (d : Doc)
    (pageUrl : String) : Option String :=
  absolutize resolve
    ((d.selectorFirst "link[rel=\"preload\"][as=\"image\"]").bind fun e => getAttr e "href")
    pageUrl

/-- Step 5: largest-declared-area `img` with area > 40000, sources read
through `getImgCandidateFromEl` (src/server.js:178-191). -/
def areaFoldStep (resolve : String → String → Option String) (pageUrl : String)
    (acc : Option String × Int) (el : El) : Option String × Int :=
  match getImgCandidateFromEl resolve (some el) pageUrl with
  | none => acc
  | some src =>
    let w := parseIntOr0 (getAttr el "width")
    let h := parseIntOr0 (getAttr el "height")
    let area := w * h
    if area > acc.2 && area > 40000 then (some src, area) else acc

/-- The accumulating `$("img").each` scan of `findBestImage`. -/
def areaStep (resolve : String → String → Option String) (d : Doc)
    (pageUrl : String) : Option String :=
  (d.allImgs.foldl (areaFoldStep resolve pageUrl) (none, 0)).1

/-- `findBestImage` (src/server.js:139-194): the five-step cascade, first
non-null result wins. -/
def findBestImage (resolve : String → String → Option String) (d : Doc)
    (pageUrl : String) : Option String :=
  match metaImageStep resolve d pageUrl with
  | some image => some image
  | none =>
    match pictureStep resolve d pageUrl with
    | some bestPic => some bestPic
    | none =>
      match selectorStep resolve d pageUrl with
      | some cand => some cand
      | none =>
        match preloadStep resolve d pageUrl with
        | some absPreload => some absPreload
        | none => areaStep resolve d pageUrl

example : pickFromSrcset (some "a.jpg 640w, b.jpg 1280w") = some "b.jpg" := by decide
example : pickFromSrcset (some "c.jpg") = some "c.jpg" := by decide
example : pickFromSrcset none = none := by decide

/-! ## JSON-blob collection (src/server.js:248-328) -/

/-- Accumulator `acc = { priceCands: [], images: [] }`.  Images hold raw JSON
values because `acc.images.push(v.url)` can push non-strings. -/
structure JsonAcc where
  priceCands : List PriceCandidate
  images : List JSVal

def priceKeys : List String :=
  ["price", "currentPrice", "salesPrice", "salePrice",
   "finalPrice", "priceValue", "unitPrice", "lowPrice",
   "offerPrice", "amount", "value"]

def imageKeys : List String :=
  ["image", "imageUrl", "imageURL", "img", "thumbnail",
   "thumbnailUrl", "primaryImage", "mediaUrl", "src", "url"]

/-- The price-key branch of one `Object.entries` pair
(src/server.js:272-275).  `if (n)` is number truthiness. -/
def collectEntryPrice (lk k : String) (v : JSVal) (acc : JsonAcc) : JsonAcc :=
  if priceKeys.any (fun pk => strIncludes lk (strToLower pk)) then
    match parsePriceNumberVal v with
    | some n =>
      if !(n == 0) then
        { acc with priceCands := acc.priceCands ++ [⟨n, "json:" ++ k, ""⟩] }
      else acc
    | none => acc
  else acc

/-- The image-key branch of one `Object.entries` pair
(src/server.js:277-283). -/
def collectEntryImage (lk : String) (v : JSVal) (acc : JsonAcc) : JsonAcc :=
  if imageKeys.any (fun ik => strIncludes lk (strToLower ik)) then
    match v with
    | .str s => { acc with images := acc.images ++ [.str s] }
    | _ =>
      if jsTruthy v && jsIsObjectType v then
        let acc :=
          match jsGet v "url" with
          | some u =>
            if jsTruthy u then { acc with images := acc.images ++ [u] } else acc
          | none => acc
        match jsGet v "src" with
        | some u =>
          if jsTruthy u then { acc with images := acc.images ++ [u] } else acc
        | none => acc
      else acc
  else acc

mutual

/-- `collectFromJSON` (src/server.js:251-287): recursive walk over a JSON
value; primitives and `null` return unchanged. -/
def collectFromJSON : JSVal → JsonAcc → JsonAcc
  | .arr l, acc => collectFromJSONList l acc
  | .obj entries, acc => collectFromJSONEntries entries acc
  | _, acc => acc

/-- `for (const el of obj) collectFromJSON(el, acc)` -/
def collectFromJSONList : List JSVal → JsonAcc → JsonAcc
  | [], acc => acc
  | v :: rest, acc => collectFromJSONList rest (collectFromJSON v acc)

/-- `for (const [k, v] of Object.entries(obj))` body. -/
def collectFromJSONEntries : List (String × JSVal) → JsonAcc → JsonAcc
  | [], acc => acc
  | (k, v) :: rest, acc =>
    let lk := strToLower k
    let acc := collectEntryPrice lk k v acc
    let acc := collectEntryImage lk v acc
    let acc := if jsTruthy v && jsIsObjectType v then collectFromJSON v acc else acc
    collectFromJSONEntries rest acc

end

/-- The quoted-key regexes of the JSON-parse-failure fallback
(src/server.js:298-306), without the shared `"price"` prefix quotes. -/
def priceRegexKeys : List String :=
  ["price", "currentPrice", "salesPrice", "finalPrice", "lowPrice", "amount", "value"]

/-- One attempted match of `/"key"\s*:\s*"([^"]+)"/i` at the current
position; returns the capture and the rest of the input after the match. -/
def matchKeyValueAt (key : List Char) (cs : List Char) : Option (String × List Char) :=
  match cs with
  | '"' :: cs1 =>
    match stripPrefixCI key cs1 with
    | some ('"' :: cs2) =>
      let cs3 := cs2.dropWhile isJsSpace
      match cs3 with
      | ':' :: cs4 =>
        let cs5 := cs4.dropWhile isJsSpace
        match cs5 with
        | '"' :: cs6 =>
          let cap := cs6.takeWhile (fun c => !(c == '"'))
          match cs6.dropWhile (fun c => !(c == '"')) with
          | '"' :: cs7 => if cap.isEmpty then none else some (String.mk cap, cs7)
          | _ => none
        | _ => none
      | _ => none
    | _ => none
  | _ => none

/-- Global scan of `/"key"\s*:\s*"([^"]+)"/gi` (`while ((m = re.exec(txt)))`):
captures in order; after a match the scan resumes at `re.lastIndex`. -/
def scanKeyAux (key : List Char) : Nat → List Char → List String
  | 0, _ => []
  | _ + 1, [] => []
  | fuel + 1, c :: cs =>
    match matchKeyValueAt key (c :: cs) with
    | some (cap, rest) => cap :: scanKeyAux key fuel rest
    | none => scanKeyAux key fuel cs

/-- All captures of `/"key"\s*:\s*"([^"]+)"/gi` over a script body. -/
def findKeyStringMatches (key : String) (txt : String) : List String :=
  scanKeyAux key.toList (txt.length + 1) txt.toList

/-- Character class `[^\s"'\\)]` of the bare-image-URL regex. -/
def imgUrlBodyChar (c : Char) : Bool :=
  !isJsSpace c && !(c == '"') && !(c == '\'') && !(c == '\\') && !(c == ')')

/-- `\.(?:jpg|jpeg|png|webp)` (case-insensitive, alternatives in source
order); returns the consumed characters and the rest. -/
def imgExtAt (cs : List Char) : Option (List Char × List Char) :=
  match cs with
  | '.' :: rest =>
    let tryExt : List String → Option (List Char × List Char) := fun exts =>
      exts.foldl
        (fun acc ext =>
          match acc with
          | some r => some r
          | none =>
            match stripPrefixCI ext.toList rest with
            | some after => some ('.' :: rest.take ext.length, after)
            | none => none)
        none
    tryExt ["jpg", "jpeg", "png", "webp"]
  | _ => none

/-- The lazy body `[^\s"'\\)]+?` followed by the extension group: consume one
class character at a time, checking for the extension after each (lazy `+?`). -/
def imgLazyBody : Nat → List Char → Option (List Char × List Char)
  | 0, _ => none
  | _ + 1, [] => none
  | fuel + 1, c :: cs =>
    if imgUrlBodyChar c then
      match imgExtAt cs with
      | some (ext, rest) => some (c :: ext, rest)
      | none =>
        match imgLazyBody fuel cs with
        | some (t, rest) => some (c :: t, rest)
        | none => none
    else none

/-- One attempted match of `/https?:\/\/[^\s"'\\)]+?\.(?:jpg|jpeg|png|webp)/i`
at the current position; returns `match[0]` and the rest. -/
def imgUrlMatchAt (cs : List Char) : Option (String × List Char) :=
  match stripPrefixCI "http".toList cs with
  | none => none
  | some cs1 =>
    let withS :=  -- `s?` greedy: try consuming an `s` first
      match cs1 with
      | c :: cs2 =>
        if c.toLower == 's' then
          match stripPrefixCI "://".toList cs2 with
          | some body =>
            match imgLazyBody (body.length + 1) body with
            | some (t, rest) =>
              some (String.mk (cs.take (4 + 1 + 3 + t.length)), rest)
            | none => none
          | none => none
        else none
      | [] => none
    match withS with
    | some r => some r
    | none =>
      match stripPrefixCI "://".toList cs1 with
      | some body =>
        match imgLazyBody (body.length + 1) body with
        | some (t, rest) => some (String.mk (cs.take (4 + 3 + t.length)), rest)
        | none => none
      | none => none

/-- Global scan for bare image URLs (`txt.match(/https?:...\/gi)`). -/
def imgUrlScanAux : Nat → List Char → List String
  | 0, _ => []
  | _ + 1, [] => []
  | fuel + 1, c :: cs =>
    match imgUrlMatchAt (c :: cs) with
    | some (m, rest) => m :: imgUrlScanAux fuel rest
    | none => imgUrlScanAux fuel cs

/-- All matches of the bare-image-URL regex over a script body. -/
def findImageUrlMatches (txt : String) : List String :=
  imgUrlScanAux (txt.length + 1) txt.toList

/-- `extractFromInlineJSON` (src/server.js:289-328): walk every inline
script; JSON-parse failures fall back to the quoted-key regexes and the bare
image-URL regex; finally absolutize and denylist-filter the image list. -/
def extractFromInlineJSON (resolve : String → String → Option String)
    (d : Doc) (pageUrl : String) : JsonAcc :=
  let acc := d.inlineScripts.foldl
    (fun (acc : JsonAcc) sc =>
      if sc.raw == "" || sc.raw.length < 40 then acc
      else
        match sc.parsed with
        | some parsed => collectFromJSON parsed acc  -- inner try: total, no throw
        | none =>
          let acc := priceRegexKeys.foldl
            (fun (acc : JsonAcc) key =>
              (findKeyStringMatches key sc.raw).foldl
                (fun (acc : JsonAcc) mstr =>
                  match parsePriceNumber mstr with
                  | some n =>
                    if !(n == 0) then
                      { acc with
                        priceCands := acc.priceCands ++ [⟨n, "jsonblob:regex", ""⟩] }
                    else acc
                  | none => acc)
                acc)
            acc
          { acc with images := acc.images ++ (findImageUrlMatches sc.raw).map .str })
    ⟨[], []⟩
  { acc with
    images :=
      ((acc.images.filterMap fun u => absolutizeVal resolve (some u) pageUrl).filter
        fun u => !isBlockedImageUrl u).map .str }

example :
    findKeyStringMatches "price" "\x7b\"price\": \"49,90\", \"PRICE\":\"50\"\x7d" =
      ["49,90", "50"] := by decide
example :
    findImageUrlMatches "x HTTPS://cdn.x/a.JPGy z" = ["HTTPS://cdn.x/a.JPG"] := by decide

/-! ## The universal extractor (src/server.js:330-493) -/

/-- The mutable state of one `universalExtract` call: the candidate list, the
image slot and the strategy log. -/
structure ExtState where
  priceCands : List PriceCandidate
  image : Option String
  strategies : List String
deriving DecidableEq, Repr

/-- The guarded `push` helper of `universalExtract` (src/server.js:338-342):
only finite positive numbers are appended (`typeof n === "number"` rejects
the `null` of a failed parse; finiteness is vacuous in `ℚ`). -/
def pushCand (st : ExtState) (n : Option ℚ) (source context : String) : ExtState :=
  match n with
  | some v =>
    if 0 < v then { st with priceCands := st.priceCands ++ [⟨v, source, context⟩] } else st
  | none => st

/-- `process.env.DEBUG === "1"` with `DEBUG` unset in the modelled
deployment. -/
def DEBUG : Bool := false

/-- One offer of a JSON-LD `offers` list (src/server.js:361-364). -/
def ldProcessOffer (st : ExtState) (offer : JSVal) : ExtState :=
  let st :=
    match jsGet offer "price" with
    | some p =>
      if jsTruthy p then pushCand st (parsePriceNumberVal p) "jsonld:offers.price" "" else st
    | none => st
  match jsGet offer "lowPrice" with
  | some p =>
    if jsTruthy p then pushCand st (parsePriceNumberVal p) "jsonld:offers.lowPrice" "" else st
  | none => st

/-- `offers = node.offers || node.Offer || []; Array.isArray(offers) ? offers : [offers]`
(src/server.js:358-359). -/
def ldOffersOf (node : JSVal) : List JSVal :=
  match jsOrElseV (jsGet node "offers") (jsOrElseV (jsGet node "Offer") (.arr [])) with
  | .arr l => l
  | v => [v]

/-- `if (node?.price) push(parsePriceNumber(node.price), "jsonld:price")`
(src/server.js:365). -/
def ldNodePrice (node : JSVal) (st : ExtState) : ExtState :=
  match jsGet node "price" with
  | some p =>
    if jsTruthy p then pushCand st (parsePriceNumberVal p) "jsonld:price" "" else st
  | none => st

/-- The JSON-LD image block `if (!image) { ... }` (src/server.js:367-372). -/
def ldNodeImage (resolve : String → String → Option String) (pageUrl : String)
    (node : JSVal) (st : ExtState) : ExtState :=
  if st.image.isNone then
    let imgCand : Option JSVal :=
      match jsGet node "image" with
      | some (.arr l) => l.get? 0  -- `Array.isArray(node.image) ? node.image[0] : ...`
      | some v => some v
      | none => none
    let imgUrl : Option JSVal :=
      match imgCand with
      | some v => if jsIsObjectType v then jsGet v "url" else some v
      | none => none
    match absolutizeVal resolve imgUrl pageUrl with
    | some abs =>
      { st with image := some abs, strategies := st.strategies ++ ["JSON-LD:image"] }
    | none => st
  else st

/-- One node of a JSON-LD graph (src/server.js:356-373).  `.error`
models a thrown `TypeError`: `node["@type"]` on a `null` node aborts the
enclosing `try` block with the state accumulated so far. -/
def ldProcessNode (resolve : String → String → Option String) (pageUrl : String)
    (st : ExtState) (node : JSVal) : Except ExtState ExtState :=
  match node with
  | .null => .error st
  | _ =>
    if jsStrictEqStr (jsGet node "@type") "Product" ||
        jsStrictEqStr (jsGet node "@type") "Offer" then
      .ok (ldNodeImage resolve pageUrl node
        (ldNodePrice node ((ldOffersOf node).foldl ldProcessOffer st)))
    else .ok st

/-- `for (const node of nodes)` with exception propagation. -/
def ldFoldNodes (resolve : String → String → Option String) (pageUrl : String)
    (st : ExtState) : List JSVal → Except ExtState ExtState
  | [] => .ok st
  | n :: rest =>
    match ldProcessNode resolve pageUrl st n with
    | .ok st' => ldFoldNodes resolve pageUrl st' rest
    | .error st' => .error st'

/-- One entry of the top-level JSON-LD list (src/server.js:352-374):
skip non-objects; `obj["@graph"]` (when truthy) supplies the node list —
iterating a truthy non-array, non-string `@graph` throws (`for..of` on a
non-iterable), a string iterates its characters (none of which carries an
`@type`). -/
def ldProcessObj (resolve : String → String → Option String) (pageUrl : String)
    (st : ExtState) (obj : JSVal) : Except ExtState ExtState :=
  if !jsTruthy obj || !jsIsObjectType obj then .ok st
  else
    match jsGet obj "@graph" with
    | some g =>
      if jsTruthy g then
        match g with
        | .arr l => ldFoldNodes resolve pageUrl st l
        | .str s =>
          ldFoldNodes resolve pageUrl st (s.toList.map fun c => JSVal.str (String.mk [c]))
        | _ => .error st
      else ldFoldNodes resolve pageUrl st [obj]
    | none => ldFoldNodes resolve pageUrl st [obj]

/-- `for (const obj of list)` with exception propagation. -/
def ldFoldObjs (resolve : String → String → Option String) (pageUrl : String)
    (st : ExtState) : List JSVal → Except ExtState ExtState
  | [] => .ok st
  | o :: rest =>
    match ldProcessObj resolve pageUrl st o with
    | .ok st' => ldFoldObjs resolve pageUrl st' rest
    | .error st' => .error st'

/-- One `script[type="application/ld+json"]` element (src/server.js:345-380):
empty text and parse failures are skipped (`catch` logs only); a successful
pass appends the `"JSON-LD"` strategy tag; a thrown iteration error keeps the
state accumulated so far without the tag. -/
def ldProcessScript (resolve : String → String → Option String) (pageUrl : String)
    (st : ExtState) (sc : ScriptEl) : ExtState :=
  if sc.raw == "" then st
  else
    match sc.parsed with
    | none => st
    | some data =>
      let list := match data with | .arr l => l | v => [v]
      match ldFoldObjs resolve pageUrl st list with
      | .ok st' => { st' with strategies := st'.strategies ++ ["JSON-LD"] }
      | .error st' => st'

def dataSelectors : List String :=
  ["[data-price]", "[data-price-amount]", "[data-product-price]",
   "[data-test-id*='price']", "[data-testid*='price']", "[data-cy*='price']"]

def currentFirstSelectors : List String :=
  [".price--current", ".price__current", ".price-current",
   ".current-price", ".sales-price", ".final-price",
   ".priceToPay .a-offscreen", ".a-price .a-offscreen"]

def genericLaterSelectors : List String :=
  [".sale-price", ".offer-price", ".product-price", ".price",
   "#price", "#priceblock_ourprice", "#priceblock_dealprice",
   ".a-price-whole", "span.a-price > span.a-offscreen",
   "[data-a-color='price']",
   "[class*='price'][class*='current']",
   "[class*='Price']"]

/-- `/\b(uvp|statt|vorher|durchgestrichen|unverbindlich)\b/i.test(txt)` -/
def uvpTest (txt : String) : Bool :=
  ["uvp", "statt", "vorher", "durchgestrichen", "unverbindlich"].any fun kw =>
    containsWordCI txt kw

/-- `trySelectors` of the CSS collector (src/server.js:441-449). -/
def tryCssSelectors (d : Doc) (tag : String) (sels : List String)
    (st : ExtState) : ExtState :=
  sels.foldl
    (fun st sel =>
      match d.selectorFirst sel with
      | none => st
      | some el =>
        let txt := el.text
        if uvpTest txt then st
        else pushCand st (parsePriceNumber txt) ("css:" ++ tag ++ ":" ++ sel) "")
    st

/-! ## Body-text regex collector (src/server.js:467-488) -/

/-- Exactly `n` digits. -/
def takeDigitsN : Nat → List Char → Option (List Char × List Char)
  | 0, cs => some ([], cs)
  | _ + 1, [] => none
  | n + 1, c :: cs =>
    if c.isDigit then (takeDigitsN n cs).map (fun p => (c :: p.1, p.2)) else none

/-- Backtracking alternatives of `(?:[.,]\d{3})*` in greedy order (most
repetitions first, always ending with the zero-repetition alternative). -/
def amountReps : Nat → List Char → List (List Char × List Char)
  | 0, cs => [([], cs)]
  | fuel + 1, cs =>
    match cs with
    | s :: rest =>
      if s == '.' || s == ',' then
        match takeDigitsN 3 rest with
        | some (ds, rest2) =>
          ((amountReps fuel rest2).map fun p => (s :: ds ++ p.1, p.2)) ++ [([], cs)]
        | none => [([], cs)]
      else [([], cs)]
    | [] => [([], cs)]

/-- `[.,]\d{2}` -/
def amountFinal (cs : List Char) : Option (List Char × List Char) :=
  match cs with
  | s :: rest =>
    if s == '.' || s == ',' then (takeDigitsN 2 rest).map fun p => (s :: p.1, p.2)
    else none
  | [] => none

/-- All matches of the amount core `\d{1,3}(?:[.,]\d{3})*[.,]\d{2}` starting
at the current position, as `(consumed, rest)` pairs in the engine's
backtracking order (`\d{1,3}` greedy, then the group greedy). -/
def amountAlternatives (cs : List Char) : List (List Char × List Char) :=
  [3, 2, 1].foldl
    (fun acc k =>
      acc ++
        match takeDigitsN k cs with
        | some (ds, rest1) =>
          (amountReps (rest1.length + 1) rest1).filterMap fun p =>
            (amountFinal p.2).map fun q => (ds ++ p.1 ++ q.1, q.2)
        | none => [])
    []

/-- A body-pattern match attempt: `match[1]` and the length of `match[0]`. -/
def firstAlternativeWith (cs : List Char)
    (k : List Char × List Char → Option (String × Nat)) : Option (String × Nat) :=
  (amountAlternatives cs).foldl
    (fun acc p =>
      match acc with
      | some r => some r
      | none => k p)
    none

/-- `/(\d{1,3}(?:[.,]\d{3})*[.,]\d{2})\s*€/` at the current position. -/
def bodyPat1At (cs : List Char) : Option (String × Nat) :=
  firstAlternativeWith cs fun p =>
    match p.2.dropWhile isJsSpace with
    | '€' :: r => some (String.mk p.1, cs.length - r.length)
    | _ => none

/-- `/€\s*(\d{1,3}(?:[.,]\d{3})*[.,]\d{2})/` at the current position. -/
def bodyPat2At (cs : List Char) : Option (String × Nat) :=
  match cs with
  | '€' :: r1 =>
    let r2 := r1.dropWhile isJsSpace
    match amountAlternatives r2 with
    | p :: _ => some (String.mk p.1, cs.length - p.2.length)
    | [] => none
  | _ => none

/-- `/(\d{1,3}(?:[.,]\d{3})*[.,]\d{2})\s*EUR/i` at the current position. -/
def bodyPat3At (cs : List Char) : Option (String × Nat) :=
  firstAlternativeWith cs fun p =>
    match stripPrefixCI "eur".toList (p.2.dropWhile isJsSpace) with
    | some r => some (String.mk p.1, cs.length - r.length)
    | none => none

/-- `/EUR\s*(\d{1,3}(?:[.,]\d{3})*[.,]\d{2})/i` at the current position. -/
def bodyPat4At (cs : List Char) : Option (String × Nat) :=
  match stripPrefixCI "eur".toList cs with
  | some r1 =>
    let r2 := r1.dropWhile isJsSpace
    match amountAlternatives r2 with
    | p :: _ => some (String.mk p.1, cs.length - p.2.length)
    | [] => none
  | none => none

/-- `/(\d{1,4})(?:,-)\b/` at the current position: `\b` after `-` (non-word)
requires the next character to be a word character. -/
def bodyPat5At (cs : List Char) : Option (String × Nat) :=
  [4, 3, 2, 1].foldl
    (fun acc k =>
      match acc with
      | some r => some r
      | none =>
        match takeDigitsN k cs with
        | some (ds, ',' :: '-' :: r2) =>
          match r2 with
          | c :: _ => if isWordChar c then some (String.mk ds, k + 2) else none
          | [] => none
        | _ => none)
    none

/-- Global scan of one body pattern (`while ((m = re.exec(body)))`), yielding
`(m.index, m[1])` pairs; the scan resumes at `re.lastIndex`. -/
def scanPattern (matchAt : List Char → Option (String × Nat)) :
    Nat → Nat → List Char → List (Nat × String)
  | 0, _, _ => []
  | _ + 1, _, [] => []
  | fuel + 1, idx, c :: cs =>
    match matchAt (c :: cs) with
    | some (cap, len) =>
      (idx, cap) :: scanPattern matchAt fuel (idx + len) ((c :: cs).drop len)
    | none => scanPattern matchAt fuel (idx + 1) cs

/-- First-substring replace (`String.prototype.replace` with a string
pattern). -/
def replaceFirstSub (pat rep : List Char) : List Char → List Char
  | [] => []
  | c :: cs =>
    if pat.isPrefixOf (c :: cs) then rep ++ (c :: cs).drop pat.length
    else c :: replaceFirstSub pat rep cs

/-- The regex-fallback body collector (src/server.js:467-488): five patterns
in order, ±60 characters of context per match, values outside
`(0, 1 000 000]` discarded. -/
def bodyRegexCollector (d : Doc) (st : ExtState) : ExtState :=
  let bl := d.bodyText.toList
  [bodyPat1At, bodyPat2At, bodyPat3At, bodyPat4At, bodyPat5At].foldl
    (fun st matchAt =>
      (scanPattern matchAt (bl.length + 1) 0 bl).foldl
        (fun st m =>
          let idx := m.1
          let start := idx - 60
          let stop := min bl.length (idx + 60)
          let ctx := String.mk ((bl.drop start).take (stop - start))
          let raw :=
            if strIncludes m.2 ",-" then
              String.mk (replaceFirstSub [',', '-'] [',', '0', '0'] m.2.toList)
            else m.2
          match parsePriceNumber raw with
          | none => st  -- `!n`
          | some n =>
            if n ≤ 0 || n > 1000000 then st else pushCand st (some n) "regex:body" ctx)
        st)
    st

example : bodyPat1At "234,56 €x".toList = some ("234,56", 8) := by decide
example : bodyPat1At "1234,56 €".toList = none := by decide
example : scanPattern bodyPat1At 20 0 "ab 19,99 € cd".toList = [(3, "19,99")] := by decide
example : bodyPat5At "379,-".toList = none := by decide
example : bodyPat5At "379,-x".toList = some ("379", 5) := by decide

/-! ## `universalExtract` (src/server.js:333-493) -/

/-- The result record `{ price, image, strategies, priceCands }`. -/
structure ExtractionResult where
  price : Option ℚ
  image : Option String
  strategies : List String
  priceCands : List PriceCandidate
deriving DecidableEq, Repr

/-- The microdata collector (src/server.js:383-387). -/
def microdataCollector (d : Doc) (st : ExtState) : ExtState :=
  let val : Option String :=
    match d.selectorFirst "[itemprop=\"price\"]" with
    | none => some ""  -- `el.attr(...) || el.text()` on an empty selection
    | some el => jsOrStr (getAttr el "content") (some el.text)
  pushCand st (parsePriceNumberOpt val) "microdata:price" ""

/-- The OG/Twitter meta price collector (src/server.js:391-396). -/
def ogPriceCollector (d : Doc) (st : ExtState) : ExtState :=
  let ogPrice :=
    jsOrStr (metaContent d "meta[property=\"product:price:amount\"]")
      (jsOrStr (metaContent d "meta[property=\"og:price:amount\"]")
        (jsOrStr (metaContent d "meta[name=\"twitter:data1\"]") none))
  pushCand st (parsePriceNumberOpt ogPrice) "og/twitter:price" ""

/-- `if (!image) { image = findBestImage($, pageUrl); ... }`
(src/server.js:398-401). -/
def imageAutoStage (resolve : String → String → Option String) (d : Doc)
    (pageUrl : String) (st : ExtState) : ExtState :=
  if st.image.isNone then
    match findBestImage resolve d pageUrl with
    | some i => { st with image := some i, strategies := st.strategies ++ ["image:auto"] }
    | none => st
  else st

/-- The `data-*` attribute collector (src/server.js:405-424). -/
def dataAttrCollector (d : Doc) (st : ExtState) : ExtState :=
  dataSelectors.foldl
    (fun st sel =>
      match d.selectorFirst sel with
      | none => st
      | some el =>
        let val :=
          jsOrStr (getAttr el "data-price")
            (jsOrStr (getAttr el "data-price-amount")
              (jsOrStr (getAttr el "data-product-price") (some el.text)))
        pushCand st (parsePriceNumberOpt val) ("data:" ++ sel) "")
    st

/-- The JSON-blob stage (src/server.js:454-465): append the accumulated
candidates and take the first surviving image as a soft candidate. -/
def jsonBlobStage (resolve : String → String → Option String) (d : Doc)
    (pageUrl : String) (st : ExtState) : ExtState :=
  let acc := extractFromInlineJSON resolve d pageUrl
  let st := { st with priceCands := st.priceCands ++ acc.priceCands }
  if st.image.isNone && !acc.images.isEmpty then
    { st with
      image := acc.images.head?.map jsToString,
      strategies := st.strategies ++ ["jsonblob:image"] }
  else if !acc.images.isEmpty then
    { st with strategies := st.strategies ++ ["jsonblob:image:candidate"] }
  else st

/-- The full static extraction pipeline `universalExtract($, pageUrl)`:
JSON-LD, microdata, OG/Twitter meta (plus `findBestImage`), `data-*`
selectors, the two CSS selector tiers, the inline-JSON blobs and the body
regex fallback, followed by price arbitration. -/
def universalExtract (resolve : String → String → Option String) (d : Doc)
    (pageUrl : String) : ExtractionResult :=
  let st : ExtState := ⟨[], none, []⟩
  let st := d.ldJsonScripts.foldl (ldProcessScript resolve pageUrl) st
  let st := microdataCollector d st
  let st := ogPriceCollector d st
  let st := imageAutoStage resolve d pageUrl st
  let st := dataAttrCollector d st
  let st := tryCssSelectors d "current" currentFirstSelectors st
  let st := tryCssSelectors d "generic" genericLaterSelectors st
  let st := jsonBlobStage resolve d pageUrl st
  let st := bodyRegexCollector d st
  { price := chooseBestPrice st.priceCands
    image := st.image
    strategies :=
      st.strategies ++ (if DEBUG then ["candidates:" ++ toString st.priceCands.length] else [])
    priceCands := st.priceCands }

/-! ## The render fallback of `/api/price` (src/server.js:626-647) -/

/-- `!out.price` for a `number | null` field. -/
def jsFalsyNumOpt (p : Option ℚ) : Bool :=
  match p with
  | none => true
  | some q => q == 0

/-- `!out.image` for a `string | null` field. -/
def jsFalsyStrOpt (s : Option String) : Bool :=
  match s with
  | none => true
  | some t => t == ""

/-- The static-then-rendered orchestration of the `/api/price` handler
(src/server.js:626-647): run `universalExtract` on the static document; if
rendering is permitted (`render=1` or `USE_BROWSER`) and price or image is
missing, render and re-run the pipeline on the rendered document, replacing
the result (`rendered = none` models `renderWithBrowser` throwing, in which
case the static result is kept). -/
def renderFallback (resolve : String → String → Option String)
    (forceRender useBrowser : Bool) (staticDoc : Doc) (targetUrl : String)
    (rendered : Option Doc) : ExtractionResult :=
  let out := universalExtract resolve staticDoc targetUrl
  if (forceRender || useBrowser) &&
      (jsFalsyNumOpt out.price || jsFalsyStrOpt out.image) then
    match rendered with
    | some d2 => universalExtract resolve d2 targetUrl
    | none => out
  else out

/-- The document whose every query is empty (used in concrete runs). -/
def emptyDoc : Doc :=
  { selectorFirst := fun _ => none
    ldJsonScripts := []
    inlineScripts := []
    pictureSourceSrcsets := []
    allImgs := []
    bodyText := "" }

example :
    (universalExtract resolveAbs emptyDoc "https://shop.example/p").price = none := by decide
example :
    (universalExtract resolveAbs emptyDoc "https://shop.example/p").image = none := by decide

/-! ## Helper lemmas -/

/-- A successful parse is strictly positive (the final guard of
`parsePriceNumber`). -/
theorem posGuard_pos (o : Option ℚ) (v : ℚ) (h : posGuard o = some v) : 0 < v := by
  unfold posGuard at h
  split at h
  · next hpos =>
    split at h
    · next => cases h; assumption
    · exact absurd h (by simp)
  · exact absurd h (by simp)

/-- A successful parse is strictly positive (the final guard of
`parsePriceNumber`). -/
theorem parsePriceNumber_pos (s : String) (v : ℚ) (h : parsePriceNumber s = some v) :
    0 < v := by
  unfold parsePriceNumber at h
  split at h
  · exact absurd h (by simp)
  · exact posGuard_pos _ v h

/-- Positivity through the `Option String` wrapper. -/
theorem parsePriceNumberOpt_pos (o : Option String) (v : ℚ)
    (h : parsePriceNumberOpt o = some v) : 0 < v := by
  cases o with
  | none => exact absurd h (by simp [parsePriceNumberOpt])
  | some s => exact parsePriceNumber_pos s v h

/-- Positivity through the JSON-value wrapper. -/
theorem parsePriceNumberVal_pos (w : JSVal) (v : ℚ)
    (h : parsePriceNumberVal w = some v) : 0 < v := by
  unfold parsePriceNumberVal at h
  split at h
  · exact absurd h (by simp)
  · exact parsePriceNumber_pos _ v h

/-! ## Claim C4 — normalizer positive cases -/

/-- C4: the number normalizer maps `"1.299,00"`, `"1,299.00"`, `"1299,00"`
and `"1299.00"` to `1299.00`, and the trailing-shorthand `"379,-"` to
`379.00`. -/
theorem c4_normalizer_positive_cases :
    parsePriceNumber "1.299,00" = some 1299 ∧
    parsePriceNumber "1,299.00" = some 1299 ∧
    parsePriceNumber "1299,00" = some 1299 ∧
    parsePriceNumber "1299.00" = some 1299 ∧
    parsePriceNumber "379,-" = some 379 := by
  refine ⟨?_, ?_, ?_, ?_, ?_⟩ <;> decide

/-! ## Claim C5 — normalizer rejections and positivity -/

/-- C5: the normalizer returns `none` on `"0"`, `""`, `"abc"` and `"-5,00"`,
and in general a successful parse is strictly positive (finiteness is
automatic in `ℚ`; the numeral zero reaches the pipeline as `String(0) = "0"`
and is rejected by the same final guard). -/
theorem c5_normalizer_rejections :
    parsePriceNumber "0" = none ∧
    parsePriceNumber "" = none ∧
    parsePriceNumber "abc" = none ∧
    parsePriceNumber "-5,00" = none ∧
    ∀ (s : String) (v : ℚ), parsePriceNumber s = some v → 0 < v := by
  refine ⟨by decide, by decide, by decide, by decide, parsePriceNumber_pos⟩

/-- Witness for C5: the positivity implication applied at `"20"`. -/
theorem c5_normalizer_rejections_witness :
    parsePriceNumber "20" = some 20 ∧ 0 < (20 : ℚ) :=
  ⟨by decide, c5_normalizer_rejections.2.2.2.2 "20" 20 (by decide)⟩

/-! ## Claim C3 — concrete arbitration scenarios -/

/-- C3: two candidates `19.99` with context `"inkl. MwSt"` and one `17.99`
with context `"netto"` arbitrate to `19.99`; two equally frequent candidates
`25.00` and `30.00` with empty contexts arbitrate to `30.00`. -/
theorem c3_arbitration_scenarios :
    chooseBestPrice
        [⟨mkRat 1999 100, "regex:body", "inkl. MwSt"⟩,
         ⟨mkRat 1999 100, "regex:body", "inkl. MwSt"⟩,
         ⟨mkRat 1799 100, "regex:body", "netto"⟩] = some (mkRat 1999 100) ∧
    chooseBestPrice
        [⟨25, "regex:body", ""⟩, ⟨30, "regex:body", ""⟩] = some 30 := by
  exact ⟨by decide, by decide⟩

/-! ## Claim C7 — idempotence / determinism of extraction -/

/-- Two successive extraction passes over the same parsed document.  In the
embedding every piece of state the source mutates (`priceCands`, `image`,
`strategies`, the JSON accumulator `acc`) is created inside
`universalExtract` and threaded explicitly, mirroring the fact that the
JavaScript function closes over fresh local arrays on every call; the only
module-level mutable binding (`browserSingleton`) is never read by
`universalExtract`. -/
def extractTwice (resolve : String → String → Option String) (d : Doc)
    (u : String) : ExtractionResult × ExtractionResult :=
  (universalExtract resolve d u, universalExtract resolve d u)

/-- C7: running extraction twice on the same static document and page URL
yields identical `ExtractionResult`s — the second pass sees no state from
the first. -/
theorem c7_extraction_deterministic (resolve : String → String → Option String)
    (d : Doc) (u : String) :
    (extractTwice resolve d u).1 = (extractTwice resolve d u).2 ∧
    (extractTwice resolve d u).1 = universalExtract resolve d u :=
  ⟨rfl, rfl⟩

/-! ## Claim C6 — render fallback orchestration -/

/-- A document whose only signal is a microdata price of `49.99` (used as a
concrete rendered document). -/
def microDoc : Doc :=
  { emptyDoc with
    selectorFirst := fun sel =>
      if sel == "[itemprop=\"price\"]" then some ⟨[("content", "49.99")], ""⟩ else none }

/-- C6: if rendering is permitted (`render=1` or `USE_BROWSER`) and the
static pass lacks a price or an image, the handler re-runs the full pipeline
on the rendered document and its result fully replaces the static one (no
merging); if rendering is not permitted, or both fields are present, the
static result is returned unchanged. -/
theorem c6_render_fallback (resolve : String → String → Option String)
    (forceRender useBrowser : Bool) (d d2 : Doc) (u : String) (r : Option Doc) :
    ((forceRender || useBrowser) = true →
      (jsFalsyNumOpt (universalExtract resolve d u).price ||
        jsFalsyStrOpt (universalExtract resolve d u).image) = true →
      renderFallback resolve forceRender useBrowser d u (some d2) =
        universalExtract resolve d2 u) ∧
    ((forceRender || useBrowser) = false →
      renderFallback resolve forceRender useBrowser d u r = universalExtract resolve d u) ∧
    ((jsFalsyNumOpt (universalExtract resolve d u).price ||
        jsFalsyStrOpt (universalExtract resolve d u).image) = false →
      renderFallback resolve forceRender useBrowser d u r = universalExtract resolve d u) := by
  refine ⟨?_, ?_, ?_⟩
  · intro h h2
    unfold renderFallback
    simp [h, h2]
  · intro h
    unfold renderFallback
    simp [h]
  · intro h
    unfold renderFallback
    simp [h]

/-- Witness for C6: with rendering forced, an empty static document (no
price, no image) and `microDoc` as the rendered document, the final result
is exactly the rendered pass's result. -/
theorem c6_render_fallback_witness :
    (true || false) = true ∧
    (jsFalsyNumOpt (universalExtract resolveAbs emptyDoc "https://shop.example/p").price ||
      jsFalsyStrOpt (universalExtract resolveAbs emptyDoc "https://shop.example/p").image) = true ∧
    renderFallback resolveAbs true false emptyDoc "https://shop.example/p" (some microDoc) =
      universalExtract resolveAbs microDoc "https://shop.example/p" :=
  ⟨rfl, by decide,
    (c6_render_fallback resolveAbs true false emptyDoc microDoc
      "https://shop.example/p" (some microDoc)).1 rfl (by decide)⟩

/-! ## Claim C1 — image-resolution denylist -/

/-- Every URL accepted by the attribute loop of `getImgCandidateFromEl` has
passed the denylist test. -/
theorem imgAttrLoop_not_blocked (resolve : String → String → Option String)
    (e : El) (u : String) :
    ∀ (attrs : List String) (s : String),
      imgAttrLoop resolve e u attrs = some s → isBlockedImageUrl s = false := by
  intro attrs
  induction attrs with
  | nil => intro s h; simp [imgAttrLoop] at h
  | cons a rest ih =>
    intro s h
    simp only [imgAttrLoop] at h
    split at h
    · split at h
      · exact ih s h
      · split at h
        · split at h
          · exact ih s h
          · next hnb => cases h; simpa using hnb
        · exact ih s h
    · exact ih s h

/-- Every URL returned by `getImgCandidateFromEl` has passed the denylist
test (attribute loop or srcset fallback). -/
theorem getImgCandidateFromEl_not_blocked (resolve : String → String → Option String)
    (img : Option El) (u : String) (s : String)
    (h : getImgCandidateFromEl resolve img u = some s) : isBlockedImageUrl s = false := by
  cases img with
  | none => simp [getImgCandidateFromEl] at h
  | some e =>
    simp only [getImgCandidateFromEl] at h
    split at h
    · next habs => cases h; exact imgAttrLoop_not_blocked resolve e u imgAttrNames s habs
    · split at h
      · split at h
        · exact absurd h (by simp)
        · next hnb => cases h; simpa using hnb
      · exact absurd h (by simp)

/-- The selector cascade only returns denylist-clean URLs. -/
theorem selectorCascade_not_blocked (resolve : String → String → Option String)
    (d : Doc) (u : String) :
    ∀ (sels : List String) (s : String),
      selectorCascade resolve d u sels = some s → isBlockedImageUrl s = false := by
  intro sels
  induction sels with
  | nil => intro s h; simp [selectorCascade] at h
  | cons sel rest ih =>
    intro s h
    simp only [selectorCascade] at h
    split at h
    · next cand hc => cases h; exact getImgCandidateFromEl_not_blocked resolve _ u s hc
    · exact ih s h

/-- The largest-area scan only returns denylist-clean URLs. -/
theorem areaStep_not_blocked (resolve : String → String → Option String)
    (d : Doc) (u : String) (s : String) (h : areaStep resolve d u = some s) :
    isBlockedImageUrl s = false := by
  unfold areaStep at h
  have H : ∀ (imgs : List El) (acc : Option String × Int),
      (∀ t, acc.1 = some t → isBlockedImageUrl t = false) →
      ∀ t, (imgs.foldl (areaFoldStep resolve u) acc).1 = some t →
        isBlockedImageUrl t = false := by
    intro imgs
    induction imgs with
    | nil => intro acc hacc t ht; exact hacc t ht
    | cons el rest ih =>
      intro acc hacc t ht
      rw [List.foldl_cons] at ht
      refine ih _ ?_ t ht
      intro t' ht'
      unfold areaFoldStep at ht'
      split at ht'
      · exact hacc t' ht'
      · next src hsrc =>
        dsimp only at ht'
        split at ht'
        · have hst : src = t' := by simpa using ht'
          subst hst
          exact getImgCandidateFromEl_not_blocked resolve _ u _ hsrc
        · exact hacc t' ht'
  exact H d.allImgs (none, 0) (by simp) s h

/-- C1 (amended): when the meta-tag, picture-source-set and preload steps all
produce nothing, a URL returned by `findBestImage` — which then comes from
the selector cascade or the largest-area scan, both reading `img` attributes
through `getImgCandidateFromEl` — never contains a denylisted substring. -/
theorem c1_findBestImage_denylist_amended (resolve : String → String → Option String)
    (d : Doc) (u : String) (url : String)
    (h : findBestImage resolve d u = some url)
    (hm : metaImageStep resolve d u = none)
    (hp : pictureStep resolve d u = none)
    (hl : preloadStep resolve d u = none) :
    isBlockedImageUrl url = false := by
  unfold findBestImage at h
  rw [hm, hp] at h
  cases hs : selectorStep resolve d u with
  | some cand =>
    rw [hs] at h
    cases h
    exact selectorCascade_not_blocked resolve d u imgSelectors url hs
  | none =>
    rw [hs, hl] at h
    exact areaStep_not_blocked resolve d u url h

/-- Witness for the amended C1: a document whose only image evidence is an
`#landingImage` element with a clean `src`. -/
def landingDoc : Doc :=
  { emptyDoc with
    selectorFirst := fun sel =>
      if sel == "#landingImage" then
        some ⟨[("src", "https://cdn.example/product-photo.jpg")], ""⟩
      else none }

/-- Witness for C1 (amended) at `landingDoc`. -/
theorem c1_findBestImage_denylist_amended_witness :
    findBestImage resolveAbs landingDoc "https://shop.example/p" =
      some "https://cdn.example/product-photo.jpg" ∧
    metaImageStep resolveAbs landingDoc "https://shop.example/p" = none ∧
    pictureStep resolveAbs landingDoc "https://shop.example/p" = none ∧
    preloadStep resolveAbs landingDoc "https://shop.example/p" = none ∧
    isBlockedImageUrl "https://cdn.example/product-photo.jpg" = false :=
  ⟨by decide, by decide, by decide, by decide,
    c1_findBestImage_denylist_amended resolveAbs landingDoc "https://shop.example/p"
      "https://cdn.example/product-photo.jpg" (by decide) (by decide) (by decide) (by decide)⟩

/-- A document whose `og:image:url` meta tag points at a URL containing
`"logo"`. -/
def logoDoc : Doc :=
  { emptyDoc with
    selectorFirst := fun sel =>
      if sel == "meta[property=\"og:image:url\"]" then
        some ⟨[("content", "https://cdn.example/logo.png")], ""⟩
      else none }

/-- C1 (counterexample): the meta-tag step of `findBestImage` performs no
denylist test, so an `og:image:url` containing `"logo"` is returned as the
resolved image, refuting "image resolution never returns a URL containing
sprite/icon/logo/placeholder/loading". -/
theorem c1_findBestImage_denylist_counterexample :
    findBestImage resolveAbs logoDoc "https://shop.example/p" =
      some "https://cdn.example/logo.png" ∧
    isBlockedImageUrl "https://cdn.example/logo.png" = true ∧
    strIncludes (strToLower "https://cdn.example/logo.png") "logo" = true :=
  ⟨by decide, by decide, by decide⟩


/-! ## Frequency-map lemmas for arbitration -/

/-- Number of occurrences of a value in a value list. -/
def countVal (vs : List ℚ) (v : ℚ) : Nat := vs.countP fun x => decide (x = v)

/-- The `freq` object built over a value list. -/
def buildFreq (vs : List ℚ) : List (ℚ × Nat) := vs.foldl bumpFreq []

/-- Keys of the `freq` object. -/
def keysOf (f : List (ℚ × Nat)) : List ℚ := f.map Prod.fst

/-- `freq[v] || 0` -/
def lookupCount (f : List (ℚ × Nat)) (v : ℚ) : Nat :=
  match f.find? (fun p => decide (p.1 = v)) with
  | some p => p.2
  | none => 0

theorem keysOf_bumpFreq (f : List (ℚ × Nat)) (v w : ℚ) :
    w ∈ keysOf (bumpFreq f v) ↔ w ∈ keysOf f ∨ w = v := by
  induction f with
  | nil => simp [bumpFreq, keysOf]
  | cons p rest ih =>
    obtain ⟨k, n⟩ := p
    by_cases hk : k = v
    · subst hk
      have hb : bumpFreq ((k, n) :: rest) k = (k, n + 1) :: rest := by simp [bumpFreq]
      rw [hb]
      simp only [keysOf, List.map_cons, List.mem_cons]
      tauto
    · have hk' : (k == v) = false := by simpa using hk
      have hb : bumpFreq ((k, n) :: rest) v = (k, n) :: bumpFreq rest v := by
        simp [bumpFreq, hk']
      rw [hb]
      simp only [keysOf, List.map_cons, List.mem_cons]
      rw [keysOf] at ih
      tauto

theorem lookupCount_bumpFreq_self (f : List (ℚ × Nat)) (v : ℚ) :
    lookupCount (bumpFreq f v) v = lookupCount f v + 1 := by
  induction f with
  | nil => simp [bumpFreq, lookupCount, List.find?]
  | cons p rest ih =>
    obtain ⟨k, n⟩ := p
    by_cases hk : k = v
    · subst hk
      simp [bumpFreq, lookupCount, List.find?]
    · have hk0 : (k == v) = false := by simpa using hk
      have hk1 : (decide (k = v)) = false := by simpa using hk
      simp only [bumpFreq, hk0, Bool.false_eq_true, if_false, lookupCount, List.find?, hk1]
      exact ih

theorem lookupCount_bumpFreq_other (f : List (ℚ × Nat)) (v w : ℚ) (hw : w ≠ v) :
    lookupCount (bumpFreq f v) w = lookupCount f w := by
  induction f with
  | nil =>
    have h1 : (decide (v = w)) = false := by simpa using (Ne.symm hw)
    simp [bumpFreq, lookupCount, List.find?, h1]
  | cons p rest ih =>
    obtain ⟨k, n⟩ := p
    by_cases hk : k = v
    · subst hk
      have h1 : (decide (k = w)) = false := by simpa using fun h => hw h.symm
      simp [bumpFreq, lookupCount, List.find?, h1]
    · have hk0 : (k == v) = false := by simpa using hk
      simp only [bumpFreq, hk0, Bool.false_eq_true, if_false, lookupCount, List.find?]
      by_cases hkw : k = w
      · subst hkw
        simp
      · have h1 : (decide (k = w)) = false := by simpa using hkw
        simp only [h1]
        exact ih

theorem keysOf_bumpFreq_nodup (f : List (ℚ × Nat)) (v : ℚ)
    (h : (keysOf f).Nodup) : (keysOf (bumpFreq f v)).Nodup := by
  induction f with
  | nil => simp [bumpFreq, keysOf]
  | cons p rest ih =>
    obtain ⟨k, n⟩ := p
    simp only [keysOf, List.map_cons, List.nodup_cons] at h
    by_cases hk : k = v
    · subst hk
      simpa [bumpFreq, keysOf] using h
    · have hk0 : (k == v) = false := by simpa using hk
      simp only [bumpFreq, hk0, Bool.false_eq_true, if_false, keysOf, List.map_cons,
        List.nodup_cons]
      refine ⟨?_, ih h.2⟩
      intro hmem
      rcases (keysOf_bumpFreq rest v k).1 hmem with h2 | h2
      · exact h.1 h2
      · exact hk h2

/-- An entry of a nodup-keyed map carries its lookup value. -/
theorem mem_lookupCount (f : List (ℚ × Nat)) (hnd : (keysOf f).Nodup) :
    ∀ p ∈ f, lookupCount f p.1 = p.2 := by
  induction f with
  | nil => intro p hp; simp at hp
  | cons q rest ih =>
    intro p hp
    obtain ⟨k, n⟩ := q
    simp only [keysOf, List.map_cons, List.nodup_cons] at hnd
    rcases List.mem_cons.1 hp with h | h
    · subst h
      simp [lookupCount, List.find?]
    · by_cases hk : k = p.1
      · exact absurd (hk ▸ (List.mem_map_of_mem Prod.fst h)) hnd.1
      · have h1 : (decide (k = p.1)) = false := by simpa using hk
        simp only [lookupCount, List.find?, h1]
        exact ih hnd.2 p h

/-- The three `buildFreq` facts used by the arbitration proofs. -/
theorem buildFreq_spec (vs : List ℚ) :
    (∀ w, lookupCount (buildFreq vs) w = countVal vs w) ∧
    (∀ w, w ∈ keysOf (buildFreq vs) ↔ w ∈ vs) ∧
    (keysOf (buildFreq vs)).Nodup := by
  have main : ∀ (l : List ℚ) (f : List (ℚ × Nat)),
      (keysOf f).Nodup →
      ∀ w, (lookupCount (l.foldl bumpFreq f) w = lookupCount f w + countVal l w) ∧
        (w ∈ keysOf (l.foldl bumpFreq f) ↔ w ∈ keysOf f ∨ w ∈ l) ∧
        (keysOf (l.foldl bumpFreq f)).Nodup := by
    intro l
    induction l with
    | nil => intro f hnd w; simp [countVal, hnd]
    | cons v t ih =>
      intro f hnd w
      have hnd' := keysOf_bumpFreq_nodup f v hnd
      obtain ⟨h1, h2, h3⟩ := ih (bumpFreq f v) hnd' w
      rw [List.foldl_cons]
      refine ⟨?_, ?_, h3⟩
      · rw [h1]
        by_cases hw : w = v
        · subst hw
          rw [lookupCount_bumpFreq_self]
          simp only [countVal, List.countP_cons]
          simp
          omega
        · rw [lookupCount_bumpFreq_other f v w hw]
          have : (decide (v = w)) = false := by simpa using fun h => hw h.symm
          simp only [countVal, List.countP_cons, this]
          simp
      · rw [h2, keysOf_bumpFreq]
        simp only [List.mem_cons]
        tauto
  obtain h := main vs []
  have hnd : (keysOf ([] : List (ℚ × Nat))).Nodup := by simp [keysOf]
  refine ⟨fun w => ?_, fun w => ?_, (h hnd 0).2.2⟩
  · have := (h hnd w).1
    simpa [lookupCount, List.find?, buildFreq] using this
  · have := (h hnd w).2.1
    simpa [keysOf, buildFreq] using this

/-! ## `pickBest` computes the (frequency, value)-lexicographic maximum -/

/-- "x is no better than e" in the sort order of `chooseBestPrice`:
lower frequency, or equal frequency and value not larger. -/
def LexLE (x e : ℚ × Nat) : Prop := x.2 < e.2 ∨ (x.2 = e.2 ∧ x.1 ≤ e.1)

theorem lexLE_refl (x : ℚ × Nat) : LexLE x x := Or.inr ⟨rfl, le_refl _⟩

theorem lexLE_trans {x y z : ℚ × Nat} (h1 : LexLE x y) (h2 : LexLE y z) : LexLE x z := by
  rcases h1 with h1 | ⟨h1, h1'⟩ <;> rcases h2 with h2 | ⟨h2, h2'⟩
  · exact Or.inl (h1.trans h2)
  · exact Or.inl (h2 ▸ h1)
  · exact Or.inl (h1 ▸ h2)
  · exact Or.inr ⟨h1.trans h2, h1'.trans h2'⟩

theorem pickStep_cases (b x : ℚ × Nat) : pickStep b x = b ∨ pickStep b x = x := by
  unfold pickStep; split
  · exact Or.inr rfl
  · exact Or.inl rfl

theorem pickStep_ge_left (b x : ℚ × Nat) : LexLE b (pickStep b x) := by
  unfold pickStep; split
  · next hcond =>
    have h : b.2 < x.2 ∨ (x.2 = b.2 ∧ b.1 < x.1) := by simpa using hcond
    rcases h with h | ⟨h1, h2⟩
    · exact Or.inl h
    · exact Or.inr ⟨h1.symm, le_of_lt h2⟩
  · exact lexLE_refl b

theorem pickStep_ge_right (b x : ℚ × Nat) : LexLE x (pickStep b x) := by
  unfold pickStep; split
  · exact lexLE_refl x
  · next hcond =>
    have h : ¬ b.2 < x.2 ∧ ¬ (x.2 = b.2 ∧ b.1 < x.1) := by
      constructor
      · intro h
        exact hcond (by simp [h])
      · intro h
        exact hcond (by simp [h.1, h.2])
    have hxb : x.2 ≤ b.2 := Nat.le_of_not_lt h.1
    rcases Nat.eq_or_lt_of_le hxb with heq | hlt
    · refine Or.inr ⟨heq, ?_⟩
      by_contra hbx
      push_neg at hbx
      exact h.2 ⟨heq, hbx⟩
    · exact Or.inl hlt

theorem pickFold_spec (e : ℚ × Nat) (rest : List (ℚ × Nat)) :
    (rest.foldl pickStep e = e ∨ rest.foldl pickStep e ∈ rest) ∧
    LexLE e (rest.foldl pickStep e) ∧
    ∀ x ∈ rest, LexLE x (rest.foldl pickStep e) := by
  induction rest generalizing e with
  | nil => exact ⟨Or.inl rfl, lexLE_refl e, by simp⟩
  | cons x t ih =>
    obtain ⟨hmem, hge, hall⟩ := ih (pickStep e x)
    rw [List.foldl_cons]
    refine ⟨?_, ?_, ?_⟩
    · rcases hmem with h | h
      · rcases pickStep_cases e x with h2 | h2
        · exact Or.inl (h.trans h2)
        · exact Or.inr (List.mem_cons.2 (Or.inl (h.trans h2)))
      · exact Or.inr (List.mem_cons.2 (Or.inr h))
    · exact lexLE_trans (pickStep_ge_left e x) hge
    · intro y hy
      rcases List.mem_cons.1 hy with h | h
      · have hx := lexLE_trans (pickStep_ge_right e x) hge
        rw [h]
        exact hx
      · exact hall y h

/-- `pickBest` on a nonempty entry list returns the key of an entry that is
a `LexLE`-maximum of the list. -/
theorem pickBest_spec (f : List (ℚ × Nat)) (hf : f ≠ []) :
    ∃ e ∈ f, pickBest f = some e.1 ∧ ∀ x ∈ f, LexLE x e := by
  cases f with
  | nil => exact absurd rfl hf
  | cons e rest =>
    obtain ⟨hmem, hge, hall⟩ := pickFold_spec e rest
    refine ⟨rest.foldl pickStep e, ?_, rfl, ?_⟩
    · rcases hmem with h | h
      · rw [h]
        exact List.mem_cons_self e rest
      · exact List.mem_cons.2 (Or.inr h)
    · intro x hx
      rcases List.mem_cons.1 hx with h | h
      · subst h
        exact hge
      · exact hall x h

/-! ## Arbitration characterization (claims C2 and C9) -/

/-- The values of the arbitration pool (claim steps 1–4: range filter with
fallback, context scoring, non-negative partition preference). -/
def claimPoolValues (cands : List PriceCandidate) : List ℚ :=
  (arbPool cands).map (·.value)

theorem rangeOrAll_ne_nil (cands : List PriceCandidate) (h : cands ≠ []) :
    rangeOrAll cands ≠ [] := by
  unfold rangeOrAll
  split
  · exact h
  · next hne => simpa [List.isEmpty_iff] using hne

theorem arbPool_ne_nil (cands : List PriceCandidate) (h : cands ≠ []) :
    arbPool cands ≠ [] := by
  unfold arbPool
  dsimp only
  split
  · simpa using rangeOrAll_ne_nil cands h
  · next hne => simpa [List.isEmpty_iff] using hne

theorem claimPoolValues_ne_nil (cands : List PriceCandidate) (h : cands ≠ []) :
    claimPoolValues cands ≠ [] := by
  simpa [claimPoolValues] using arbPool_ne_nil cands h

theorem buildFreq_ne_nil (vs : List ℚ) (h : vs ≠ []) : buildFreq vs ≠ [] := by
  obtain ⟨w, hw⟩ := List.exists_mem_of_ne_nil vs h
  have : w ∈ keysOf (buildFreq vs) := ((buildFreq_spec vs).2.1 w).2 hw
  intro hnil
  rw [hnil] at this
  simp [keysOf] at this

/-- The shared characterization: on a nonempty candidate list,
`chooseBestPrice` returns a member of the pool's value list that maximizes
(frequency, value) lexicographically over that list. -/
theorem chooseBestPrice_spec (cands : List PriceCandidate) (h : cands ≠ []) :
    ∃ m, chooseBestPrice cands = some m ∧ m ∈ claimPoolValues cands ∧
      ∀ w ∈ claimPoolValues cands,
        countVal (claimPoolValues cands) w < countVal (claimPoolValues cands) m ∨
        (countVal (claimPoolValues cands) w = countVal (claimPoolValues cands) m ∧ w ≤ m) := by
  have hvs_ne : claimPoolValues cands ≠ [] := claimPoolValues_ne_nil cands h
  have hfold : (arbPool cands).foldl (fun f c => bumpFreq f c.value) [] =
      buildFreq (claimPoolValues cands) := by
    unfold claimPoolValues buildFreq
    exact (List.foldl_map _ _ _ _).symm
  have hcb : chooseBestPrice cands = pickBest (buildFreq (claimPoolValues cands)) := by
    unfold chooseBestPrice
    rw [if_neg (by simpa [List.isEmpty_iff] using h)]
    rw [hfold]
  obtain ⟨spec1, spec2, spec3⟩ := buildFreq_spec (claimPoolValues cands)
  obtain ⟨e, he, hpb, hmax⟩ :=
    pickBest_spec (buildFreq (claimPoolValues cands)) (buildFreq_ne_nil _ hvs_ne)
  refine ⟨e.1, by rw [hcb, hpb], ?_, ?_⟩
  · refine (spec2 e.1).1 ?_
    exact List.mem_map_of_mem Prod.fst he
  · intro w hw
    have hwk : w ∈ keysOf (buildFreq (claimPoolValues cands)) := (spec2 w).2 hw
    rw [keysOf] at hwk
    obtain ⟨p, hp, hp1⟩ := List.mem_map.1 hwk
    have hpcount : p.2 = countVal (claimPoolValues cands) p.1 := by
      rw [← spec1 p.1]
      exact (mem_lookupCount _ spec3 p hp).symm
    have hecount : e.2 = countVal (claimPoolValues cands) e.1 := by
      rw [← spec1 e.1]
      exact (mem_lookupCount _ spec3 e he).symm
    rcases hmax p hp with hlt | ⟨heq, hle⟩
    · left
      rw [← hp1, ← hpcount, ← hecount]
      exact hlt
    · right
      constructor
      · rw [← hp1, ← hpcount, ← hecount, heq]
      · rw [← hp1]
        exact hle

/-- `scoreCand` keeps the candidate's value. -/
theorem scoreCand_value (c : PriceCandidate) : (scoreCand c).value = c.value := rfl

theorem mem_map_of_mem_filter {α β : Type _} (f : α → β) (p : α → Bool)
    {l : List α} {v : β} (h : v ∈ (l.filter p).map f) : v ∈ l.map f := by
  obtain ⟨c, hc, rfl⟩ := List.mem_map.1 h
  exact List.mem_map_of_mem f (List.mem_of_mem_filter hc)

/-- Every pool value is the value of some input candidate. -/
theorem claimPoolValues_sub (cands : List PriceCandidate) :
    ∀ v ∈ claimPoolValues cands, v ∈ cands.map (·.value) := by
  intro v hv
  unfold claimPoolValues arbPool at hv
  dsimp only at hv
  have hscored : v ∈ ((rangeOrAll cands).map scoreCand).map (fun c => c.value) := by
    split at hv
    · exact hv
    · exact mem_map_of_mem_filter _ _ hv
  have hbase : v ∈ (rangeOrAll cands).map (·.value) := by
    rw [List.map_map] at hscored
    exact hscored
  unfold rangeOrAll at hbase
  split at hbase
  · exact hbase
  · exact mem_map_of_mem_filter _ _ hbase

/-! ## Claim C2 — arbitration follows the specified steps -/

/-- C2: on a nonempty candidate list, `chooseBestPrice` returns a value of
the pool obtained by (1) filtering to `[10, 100000]` with fallback to the
unfiltered list, (2) scoring each candidate from its context, (3) preferring
the non-negative-score partition (`arbPool`); within that pool the returned
value is a most frequent one, and the largest among equally frequent ones
(`countVal` over `claimPoolValues`). -/
theorem c2_arbitration_steps (cands : List PriceCandidate) (h : cands ≠ []) :
    ∃ m, chooseBestPrice cands = some m ∧ m ∈ claimPoolValues cands ∧
      ∀ w ∈ claimPoolValues cands,
        countVal (claimPoolValues cands) w < countVal (claimPoolValues cands) m ∨
        (countVal (claimPoolValues cands) w = countVal (claimPoolValues cands) m ∧ w ≤ m) :=
  chooseBestPrice_spec cands h

/-- Witness for C2 at a concrete three-candidate list. -/
theorem c2_arbitration_steps_witness :
    ∃ m, chooseBestPrice [⟨50, "a", ""⟩, ⟨50, "b", ""⟩, ⟨60, "c", ""⟩] = some m ∧
      m ∈ claimPoolValues [⟨50, "a", ""⟩, ⟨50, "b", ""⟩, ⟨60, "c", ""⟩] ∧
      ∀ w ∈ claimPoolValues [⟨50, "a", ""⟩, ⟨50, "b", ""⟩, ⟨60, "c", ""⟩],
        countVal (claimPoolValues [⟨50, "a", ""⟩, ⟨50, "b", ""⟩, ⟨60, "c", ""⟩]) w <
          countVal (claimPoolValues [⟨50, "a", ""⟩, ⟨50, "b", ""⟩, ⟨60, "c", ""⟩]) m ∨
        (countVal (claimPoolValues [⟨50, "a", ""⟩, ⟨50, "b", ""⟩, ⟨60, "c", ""⟩]) w =
          countVal (claimPoolValues [⟨50, "a", ""⟩, ⟨50, "b", ""⟩, ⟨60, "c", ""⟩]) m ∧ w ≤ m) :=
  c2_arbitration_steps [⟨50, "a", ""⟩, ⟨50, "b", ""⟩, ⟨60, "c", ""⟩] (by decide)

/-! ## Claim C9 — arbitration never fabricates a value -/

/-- C9: on a nonempty candidate list, `chooseBestPrice` returns `some` value,
and that value is the `value` of at least one input candidate (the round trip
through object-key strings and `parseFloat` is exact, modelled by keying the
frequency map on the value itself). -/
theorem c9_no_fabricated_value (cands : List PriceCandidate) (h : cands ≠ []) :
    ∃ m, chooseBestPrice cands = some m ∧ m ∈ cands.map (·.value) := by
  obtain ⟨m, hm, hmem, _⟩ := chooseBestPrice_spec cands h
  exact ⟨m, hm, claimPoolValues_sub cands m hmem⟩

/-- Witness for C9 at a concrete list. -/
theorem c9_no_fabricated_value_witness :
    ∃ m, chooseBestPrice [⟨5, "a", ""⟩, ⟨7, "b", "netto"⟩] = some m ∧
      m ∈ [⟨(5 : ℚ), "a", ""⟩, ⟨7, "b", "netto"⟩].map
        (fun (c : PriceCandidate) => c.value) :=
  c9_no_fabricated_value [⟨5, "a", ""⟩, ⟨7, "b", "netto"⟩] (by decide)

/-! ## Claim C8 — candidate-value invariant -/

/-- The invariant: every candidate in the list has a (finite) value `> 0`. -/
def CandsPos (l : List PriceCandidate) : Prop := ∀ c ∈ l, 0 < c.value

theorem candsPos_append {l1 l2 : List PriceCandidate}
    (h1 : CandsPos l1) (h2 : CandsPos l2) : CandsPos (l1 ++ l2) := by
  intro c hc
  rcases List.mem_append.1 hc with h | h
  · exact h1 c h
  · exact h2 c h

theorem pushCand_pos (st : ExtState) (n : Option ℚ) (src ctx : String)
    (h : CandsPos st.priceCands) : CandsPos (pushCand st n src ctx).priceCands := by
  unfold pushCand
  split
  · split
    · next hpos =>
      refine candsPos_append h ?_
      intro c hc
      simp only [List.mem_singleton] at hc
      subst hc
      exact hpos
    · exact h
  · exact h

theorem foldl_preserve {α β : Type _} (P : α → Prop) (f : α → β → α)
    (hf : ∀ a b, P a → P (f a b)) : ∀ (l : List β) (a : α), P a → P (l.foldl f a) := by
  intro l
  induction l with
  | nil => intro a ha; exact ha
  | cons x t ih =>
    intro a ha
    rw [List.foldl_cons]
    exact ih _ (hf a x ha)

/-- The state carried by an `Except` outcome (thrown or normal). -/
def exSt : Except ExtState ExtState → ExtState
  | .ok st => st
  | .error st => st

@[simp] theorem exSt_ok (st : ExtState) : exSt (.ok st) = st := rfl

@[simp] theorem exSt_error (st : ExtState) : exSt (.error st) = st := rfl

theorem ldProcessOffer_pos (st : ExtState) (offer : JSVal)
    (h : CandsPos st.priceCands) : CandsPos (ldProcessOffer st offer).priceCands := by
  unfold ldProcessOffer
  dsimp only
  split
  · split
    · apply pushCand_pos
      split
      · split
        · apply pushCand_pos _ _ _ _ h
        · exact h
      · exact h
    · split
      · split
        · apply pushCand_pos _ _ _ _ h
        · exact h
      · exact h
  · split
    · split
      · apply pushCand_pos _ _ _ _ h
      · exact h
    · exact h


theorem ldNodePrice_pos (node : JSVal) (st : ExtState) (h : CandsPos st.priceCands) :
    CandsPos (ldNodePrice node st).priceCands := by
  unfold ldNodePrice
  split
  · split
    · exact pushCand_pos _ _ _ _ h
    · exact h
  · exact h

theorem ldNodeImage_pos (resolve : String → String → Option String) (pageUrl : String)
    (node : JSVal) (st : ExtState) (h : CandsPos st.priceCands) :
    CandsPos (ldNodeImage resolve pageUrl node st).priceCands := by
  unfold ldNodeImage
  split
  · dsimp only
    split
    · exact h
    · exact h
  · exact h

theorem ldProcessNode_pos (resolve : String → String → Option String)
    (pageUrl : String) (st : ExtState) (node : JSVal) (h : CandsPos st.priceCands) :
    CandsPos (exSt (ldProcessNode resolve pageUrl st node)).priceCands := by
  unfold ldProcessNode
  split
  · simpa using h
  · split
    · rw [exSt_ok]
      exact ldNodeImage_pos _ _ _ _
        (ldNodePrice_pos _ _
          (foldl_preserve (fun s => CandsPos s.priceCands) ldProcessOffer
            (fun a b hp => ldProcessOffer_pos a b hp) _ st h))
    · simpa using h

theorem ldFoldNodes_pos (resolve : String → String → Option String) (pageUrl : String) :
    ∀ (nodes : List JSVal) (st : ExtState), CandsPos st.priceCands →
      CandsPos (exSt (ldFoldNodes resolve pageUrl st nodes)).priceCands := by
  intro nodes
  induction nodes with
  | nil => intro st h; simpa [ldFoldNodes] using h
  | cons n rest ih =>
    intro st h
    rw [ldFoldNodes]
    cases hn : ldProcessNode resolve pageUrl st n with
    | ok st' =>
      have := ldProcessNode_pos resolve pageUrl st n h
      rw [hn, exSt_ok] at this
      exact ih st' this
    | error st' =>
      have := ldProcessNode_pos resolve pageUrl st n h
      rw [hn, exSt_error] at this
      simpa using this

theorem ldProcessObj_pos (resolve : String → String → Option String) (pageUrl : String)
    (st : ExtState) (obj : JSVal) (h : CandsPos st.priceCands) :
    CandsPos (exSt (ldProcessObj resolve pageUrl st obj)).priceCands := by
  unfold ldProcessObj
  split
  · simpa using h
  · split
    · split
      · split
        · exact ldFoldNodes_pos resolve pageUrl _ st h
        · exact ldFoldNodes_pos resolve pageUrl _ st h
        · simpa using h
      · exact ldFoldNodes_pos resolve pageUrl _ st h
    · exact ldFoldNodes_pos resolve pageUrl _ st h

theorem ldFoldObjs_pos (resolve : String → String → Option String) (pageUrl : String) :
    ∀ (objs : List JSVal) (st : ExtState), CandsPos st.priceCands →
      CandsPos (exSt (ldFoldObjs resolve pageUrl st objs)).priceCands := by
  intro objs
  induction objs with
  | nil => intro st h; simpa [ldFoldObjs] using h
  | cons o rest ih =>
    intro st h
    rw [ldFoldObjs]
    cases ho : ldProcessObj resolve pageUrl st o with
    | ok st' =>
      have := ldProcessObj_pos resolve pageUrl st o h
      rw [ho, exSt_ok] at this
      exact ih st' this
    | error st' =>
      have := ldProcessObj_pos resolve pageUrl st o h
      rw [ho, exSt_error] at this
      simpa using this

theorem ldProcessScript_pos (resolve : String → String → Option String) (pageUrl : String)
    (st : ExtState) (sc : ScriptEl) (h : CandsPos st.priceCands) :
    CandsPos (ldProcessScript resolve pageUrl st sc).priceCands := by
  unfold ldProcessScript
  split
  · exact h
  · split
    · exact h
    · next data hparsed =>
      dsimp only
      generalize (match data with | JSVal.arr l => l | v => [v]) = nodes
      cases hfold : ldFoldObjs resolve pageUrl st nodes with
      | ok st' =>
        have := ldFoldObjs_pos resolve pageUrl nodes st h
        rw [hfold, exSt_ok] at this
        simpa using this
      | error st' =>
        have := ldFoldObjs_pos resolve pageUrl nodes st h
        rw [hfold, exSt_error] at this
        exact this

theorem collectEntryPrice_pos (lk k : String) (v : JSVal) (acc : JsonAcc)
    (h : CandsPos acc.priceCands) : CandsPos (collectEntryPrice lk k v acc).priceCands := by
  unfold collectEntryPrice
  split
  · split
    · next n hn =>
      split
      · refine candsPos_append h ?_
        intro c hc
        simp only [List.mem_singleton] at hc
        subst hc
        exact parsePriceNumberVal_pos v n hn
      · exact h
    · exact h
  · exact h

theorem collectEntryImage_pos (lk : String) (v : JSVal) (acc : JsonAcc)
    (h : CandsPos acc.priceCands) : CandsPos (collectEntryImage lk v acc).priceCands := by
  unfold collectEntryImage
  repeat' split
  all_goals exact h

mutual

theorem collectFromJSON_pos (v : JSVal) (acc : JsonAcc) (h : CandsPos acc.priceCands) :
    CandsPos (collectFromJSON v acc).priceCands := by
  cases v with
  | arr l => exact collectFromJSONList_pos l acc h
  | obj entries => exact collectFromJSONEntries_pos entries acc h
  | null => simpa [collectFromJSON] using h
  | bool b => simpa [collectFromJSON] using h
  | num q => simpa [collectFromJSON] using h
  | str s => simpa [collectFromJSON] using h

theorem collectFromJSONList_pos (l : List JSVal) (acc : JsonAcc)
    (h : CandsPos acc.priceCands) : CandsPos (collectFromJSONList l acc).priceCands := by
  cases l with
  | nil => simpa [collectFromJSONList] using h
  | cons v t =>
    rw [collectFromJSONList]
    exact collectFromJSONList_pos t _ (collectFromJSON_pos v acc h)

theorem collectFromJSONEntries_pos (l : List (String × JSVal)) (acc : JsonAcc)
    (h : CandsPos acc.priceCands) : CandsPos (collectFromJSONEntries l acc).priceCands := by
  cases l with
  | nil => simpa [collectFromJSONEntries] using h
  | cons e t =>
    obtain ⟨k, v⟩ := e
    rw [collectFromJSONEntries]
    apply collectFromJSONEntries_pos t
    split
    · exact collectFromJSON_pos v _
        (collectEntryImage_pos _ _ _ (collectEntryPrice_pos _ _ _ _ h))
    · exact collectEntryImage_pos _ _ _ (collectEntryPrice_pos _ _ _ _ h)

end

theorem extractFromInlineJSON_pos (resolve : String → String → Option String)
    (d : Doc) (pageUrl : String) :
    CandsPos (extractFromInlineJSON resolve d pageUrl).priceCands := by
  unfold extractFromInlineJSON
  dsimp only
  apply foldl_preserve (fun (a : JsonAcc) => CandsPos a.priceCands)
  · intro a sc ha
    dsimp only
    split
    · exact ha
    · split
      · exact collectFromJSON_pos _ _ ha
      · dsimp only
        apply foldl_preserve (fun (a : JsonAcc) => CandsPos a.priceCands)
        · intro a2 key ha2
          apply foldl_preserve (fun (a : JsonAcc) => CandsPos a.priceCands)
          · intro a3 mstr ha3
            dsimp only
            split
            · next n hn =>
              split
              · refine candsPos_append ha3 ?_
                intro c hc
                simp only [List.mem_singleton] at hc
                subst hc
                exact parsePriceNumber_pos mstr n hn
              · exact ha3
            · exact ha3
          · exact ha2
        · exact ha
  · intro c hc
    simp at hc

theorem microdataCollector_pos (d : Doc) (st : ExtState)
    (h : CandsPos st.priceCands) : CandsPos (microdataCollector d st).priceCands :=
  pushCand_pos _ _ _ _ h

theorem ogPriceCollector_pos (d : Doc) (st : ExtState)
    (h : CandsPos st.priceCands) : CandsPos (ogPriceCollector d st).priceCands :=
  pushCand_pos _ _ _ _ h

theorem imageAutoStage_pos (resolve : String → String → Option String) (d : Doc)
    (pageUrl : String) (st : ExtState) (h : CandsPos st.priceCands) :
    CandsPos (imageAutoStage resolve d pageUrl st).priceCands := by
  unfold imageAutoStage
  repeat' split
  all_goals exact h

theorem dataAttrCollector_pos (d : Doc) (st : ExtState)
    (h : CandsPos st.priceCands) : CandsPos (dataAttrCollector d st).priceCands := by
  unfold dataAttrCollector
  apply foldl_preserve (fun (s : ExtState) => CandsPos s.priceCands)
  · intro a sel ha
    dsimp only
    split
    · exact ha
    · exact pushCand_pos _ _ _ _ ha
  · exact h

theorem tryCssSelectors_pos (d : Doc) (tag : String) (sels : List String)
    (st : ExtState) (h : CandsPos st.priceCands) :
    CandsPos (tryCssSelectors d tag sels st).priceCands := by
  unfold tryCssSelectors
  apply foldl_preserve (fun (s : ExtState) => CandsPos s.priceCands)
  · intro a sel ha
    dsimp only
    split
    · exact ha
    · split
      · exact ha
      · exact pushCand_pos _ _ _ _ ha
  · exact h

theorem jsonBlobStage_pos (resolve : String → String → Option String) (d : Doc)
    (pageUrl : String) (st : ExtState) (h : CandsPos st.priceCands) :
    CandsPos (jsonBlobStage resolve d pageUrl st).priceCands := by
  unfold jsonBlobStage
  dsimp only
  have hacc := extractFromInlineJSON_pos resolve d pageUrl
  repeat' split
  all_goals exact candsPos_append h hacc

theorem bodyRegexCollector_pos (d : Doc) (st : ExtState)
    (h : CandsPos st.priceCands) : CandsPos (bodyRegexCollector d st).priceCands := by
  unfold bodyRegexCollector
  apply foldl_preserve (fun (s : ExtState) => CandsPos s.priceCands)
  · intro a matchAt ha
    apply foldl_preserve (fun (s : ExtState) => CandsPos s.priceCands)
    · intro a2 m ha2
      dsimp only
      split
      · exact ha2
      · split
        · exact ha2
        · exact pushCand_pos _ _ _ _ ha2
    · exact ha
  · exact h

/-- C8 (shared lemma): every candidate in the extraction result is
positive. -/
theorem universalExtract_cands_pos (resolve : String → String → Option String)
    (d : Doc) (pageUrl : String) :
    CandsPos (universalExtract resolve d pageUrl).priceCands := by
  unfold universalExtract
  dsimp only
  apply bodyRegexCollector_pos
  apply jsonBlobStage_pos
  apply tryCssSelectors_pos
  apply tryCssSelectors_pos
  apply dataAttrCollector_pos
  apply imageAutoStage_pos
  apply ogPriceCollector_pos
  apply microdataCollector_pos
  apply foldl_preserve (fun (s : ExtState) => CandsPos s.priceCands)
  · intro a sc ha
    exact ldProcessScript_pos resolve pageUrl a sc ha
  · intro c hc
    simp at hc

/-- C8: every candidate ever placed in the candidate list by any collector
has a finite value strictly greater than `0` (`push` guards positivity; the
direct pushes of the JSON collectors are guarded by the normalizer, whose
successful results are positive; finiteness is vacuous in `ℚ`). -/
theorem c8_candidate_value_invariant (resolve : String → String → Option String)
    (d : Doc) (pageUrl : String) :
    ∀ c ∈ (universalExtract resolve d pageUrl).priceCands, 0 < c.value :=
  universalExtract_cands_pos resolve d pageUrl

/-- Witness for C8: the microdata candidate of `microDoc` is in the result
and the theorem yields its positivity. -/
theorem c8_candidate_value_invariant_witness :
    (⟨mkRat 4999 100, "microdata:price", ""⟩ : PriceCandidate) ∈
      (universalExtract resolveAbs microDoc "https://shop.example/p").priceCands ∧
    0 < (PriceCandidate.mk (mkRat 4999 100) "microdata:price" "").value :=
  ⟨by decide,
    c8_candidate_value_invariant resolveAbs microDoc "https://shop.example/p"
      ⟨mkRat 4999 100, "microdata:price", ""⟩ (by decide)⟩

/-! ## Claim C10 — arbitration ignores the source tag -/

theorem isEmpty_eq_of_map_eq {α β : Type _} (f : α → β) {l1 l2 : List α}
    (h : l1.map f = l2.map f) : l1.isEmpty = l2.isEmpty := by
  cases l1 <;> cases l2 <;> simp_all

theorem map_filter_congr {α β : Type _} (key : α → β) (p : α → Bool)
    (hp : ∀ c1 c2, key c1 = key c2 → p c1 = p c2) :
    ∀ (l1 l2 : List α), l1.map key = l2.map key →
      (l1.filter p).map key = (l2.filter p).map key := by
  intro l1
  induction l1 with
  | nil =>
    intro l2 h
    cases l2 with
    | nil => rfl
    | cons b t => simp at h
  | cons a t ih =>
    intro l2 h
    cases l2 with
    | nil => simp at h
    | cons b t2 =>
      simp only [List.map_cons, List.cons.injEq] at h
      obtain ⟨h1, h2⟩ := h
      have hpab : p a = p b := hp a b h1
      by_cases hb : p b = true
      · have ha : p a = true := hpab.trans hb
        rw [List.filter_cons_of_pos, List.filter_cons_of_pos]
        · simp only [List.map_cons]
          rw [h1, ih t2 h2]
        · exact hb
        · exact ha
      · have hbf : p b = false := by simpa using hb
        have haf : p a = false := hpab.trans hbf
        rw [List.filter_cons_of_neg, List.filter_cons_of_neg]
        · exact ih t2 h2
        · simpa using hbf
        · simpa using haf

theorem map_map_congr {α β γ : Type _} (key : α → β) (g : α → γ)
    (hg : ∀ c1 c2, key c1 = key c2 → g c1 = g c2) :
    ∀ (l1 l2 : List α), l1.map key = l2.map key → l1.map g = l2.map g := by
  intro l1
  induction l1 with
  | nil =>
    intro l2 h
    cases l2 with
    | nil => rfl
    | cons b t => simp at h
  | cons a t ih =>
    intro l2 h
    cases l2 with
    | nil => simp at h
    | cons b t2 =>
      simp only [List.map_cons, List.cons.injEq] at h
      obtain ⟨h1, h2⟩ := h
      simp only [List.map_cons]
      rw [hg a b h1, ih t2 h2]

/-- C10: two candidate lists that agree on (value, context) pairs — i.e.
differ at most in the diagnostic `source` tags — arbitrate to the same
price. -/
theorem c10_source_noninterference (l1 l2 : List PriceCandidate)
    (h : l1.map (fun c => (c.value, c.context)) = l2.map (fun c => (c.value, c.context))) :
    chooseBestPrice l1 = chooseBestPrice l2 := by
  have h1 : (inRangeCands l1).map (fun c => (c.value, c.context)) =
      (inRangeCands l2).map (fun c => (c.value, c.context)) := by
    unfold inRangeCands
    refine map_filter_congr _ _ ?_ l1 l2 h
    intro c1 c2 hk
    have hv : c1.value = c2.value := congrArg Prod.fst hk
    rw [hv]
  have hE1 : (inRangeCands l1).isEmpty = (inRangeCands l2).isEmpty :=
    isEmpty_eq_of_map_eq _ h1
  have h2 : (rangeOrAll l1).map (fun c => (c.value, c.context)) =
      (rangeOrAll l2).map (fun c => (c.value, c.context)) := by
    unfold rangeOrAll
    rw [hE1]
    split
    · exact h
    · exact h1
  have h3 : (rangeOrAll l1).map (fun c => ((scoreCand c).value, (scoreCand c).score)) =
      (rangeOrAll l2).map (fun c => ((scoreCand c).value, (scoreCand c).score)) := by
    refine map_map_congr _ _ ?_ _ _ h2
    intro c1 c2 hk
    have hv : c1.value = c2.value := congrArg Prod.fst hk
    have hc : c1.context = c2.context := congrArg Prod.snd hk
    simp only [scoreCand, hv, hc]
  have h3' : ((rangeOrAll l1).map scoreCand).map (fun c => (c.value, c.score)) =
      ((rangeOrAll l2).map scoreCand).map (fun c => (c.value, c.score)) := by
    rw [List.map_map, List.map_map]
    exact h3
  have h4 : (((rangeOrAll l1).map scoreCand).filter (fun c => decide (0 ≤ c.score))).map
        (fun c => (c.value, c.score)) =
      (((rangeOrAll l2).map scoreCand).filter (fun c => decide (0 ≤ c.score))).map
        (fun c => (c.value, c.score)) := by
    refine map_filter_congr _ _ ?_ _ _ h3'
    intro c1 c2 hk
    have hs : c1.score = c2.score := congrArg Prod.snd hk
    rw [hs]
  have hE2 : (((rangeOrAll l1).map scoreCand).filter (fun c => decide (0 ≤ c.score))).isEmpty =
      (((rangeOrAll l2).map scoreCand).filter (fun c => decide (0 ≤ c.score))).isEmpty :=
    isEmpty_eq_of_map_eq _ h4
  have h5 : (arbPool l1).map (fun c => (c.value, c.score)) =
      (arbPool l2).map (fun c => (c.value, c.score)) := by
    unfold arbPool
    dsimp only
    rw [hE2]
    split
    · exact h3'
    · exact h4
  have h6 : claimPoolValues l1 = claimPoolValues l2 := by
    unfold claimPoolValues
    refine map_map_congr (fun (c : ScoredCand) => (c.value, c.score)) _ ?_ _ _ h5
    intro c1 c2 hk
    exact congrArg Prod.fst hk
  have hE0 : l1.isEmpty = l2.isEmpty := isEmpty_eq_of_map_eq _ h
  have hfold : ∀ l : List PriceCandidate,
      (arbPool l).foldl (fun f c => bumpFreq f c.value) [] = buildFreq (claimPoolValues l) := by
    intro l
    unfold claimPoolValues buildFreq
    exact (List.foldl_map _ _ _ _).symm
  unfold chooseBestPrice
  rw [hE0]
  split
  · rfl
  · rw [hfold l1, hfold l2, h6]

/-- Witness for C10: two singleton lists that differ only in `source`. -/
theorem c10_source_noninterference_witness :
    [⟨(42 : ℚ), "jsonld:price", "inkl. MwSt"⟩].map
        (fun (c : PriceCandidate) => (c.value, c.context)) =
      [⟨(42 : ℚ), "regex:body", "inkl. MwSt"⟩].map
        (fun (c : PriceCandidate) => (c.value, c.context)) ∧
    chooseBestPrice [⟨(42 : ℚ), "jsonld:price", "inkl. MwSt"⟩] =
      chooseBestPrice [⟨(42 : ℚ), "regex:body", "inkl. MwSt"⟩] :=
  ⟨by decide,
    c10_source_noninterference
      [⟨(42 : ℚ), "jsonld:price", "inkl. MwSt"⟩]
      [⟨(42 : ℚ), "regex:body", "inkl. MwSt"⟩] (by decide)⟩
